import Mathlib

/-!
Verification of the reconciliation engine of the Tracking-Data Reconciliation
Tool (`src/core_reconciliation.py`, constants from `src/config.py`).

The Python data model (pandas DataFrames with cells that are `None`, float
`NaN`, or strings) is shallowly embedded: a `Cell` is one of those three
value kinds, a row is an association list from column names to cells, and a
`Table` carries the column schema plus the rows.  Every Python function that
the claims mention is translated definition-by-definition; regular-expression
scans (`RMA_ANY8_IN_TEXT_RX`, `UPS_TN_REGEX`) are embedded as explicit
left-to-right scans over the character list, with fuel equal to the string
length so that all definitions compute.
-/

/-- A pandas cell as used by the engine: `None`, float `NaN`, or a string. -/
inductive Cell where
  | none : Cell
  | nan : Cell
  | str : String → Cell
deriving DecidableEq

/-- Python `str(value)`: `None ↦ "None"`, `float('nan') ↦ "nan"`. -/
def pyStr : Cell → String
  | Cell.none => "None"
  | Cell.nan => "nan"
  | Cell.str s => s

/-- Python `str(value or "")`: `None` and `""` are falsy, `NaN` is truthy. -/
def pyStrOrEmpty : Cell → String
  | Cell.none => ""
  | Cell.nan => "nan"
  | Cell.str s => s

/-- Python truthiness of a cell (`if tn_details:`): only `None` and the
empty string are falsy here; float `NaN` is truthy. -/
def cellTruthy : Cell → Bool
  | Cell.none => false
  | Cell.nan => true
  | Cell.str s => !(s.data.isEmpty)

/-- Python `pd.isna(value)`: true for `None` and `NaN`, false for strings. -/
def pyIsNa : Cell → Bool
  | Cell.none => true
  | Cell.nan => true
  | Cell.str _ => false

/-- Strip leading and trailing whitespace from a character list
(Python `str.strip()`). -/
def trimChars (l : List Char) : List Char :=
  (((l.dropWhile Char.isWhitespace).reverse).dropWhile Char.isWhitespace).reverse

/-- Python `str.strip()`. -/
def pyStrip (s : String) : String := String.mk (trimChars s.data)

/-- Python `str.lower()` (ASCII case mapping, as used by this data). -/
def pyLower (s : String) : String := String.mk (s.data.map Char.toLower)

/-- Python `str.upper()` (ASCII case mapping, as used by this data). -/
def pyUpper (s : String) : String := String.mk (s.data.map Char.toUpper)

/-- Python `s.endswith(suffix)`. -/
def strEndsWith (s suf : String) : Bool :=
  s.data.reverse.take suf.data.length == suf.data.reverse

/-- Substring containment, Python `pat in s`. -/
def strContains (s pat : String) : Bool :=
  (List.range (s.data.length + 1)).any
    (fun i => ((s.data.drop i).take pat.data.length) == pat.data)

/-- `RMA_STRICT_RX = ^\d{8}$` as a full-string match. -/
def isDigits8 (s : String) : Bool :=
  s.data.length == 8 && s.data.all Char.isDigit

/-- `RMA_PREF6_RX = ^6\d{7}$` as a full-string match. -/
def isPref6Rx (s : String) : Bool :=
  match s.data with
  | c :: rest => c == '6' && rest.length == 7 && rest.all Char.isDigit
  | [] => false

/-- Python `s.startswith(c)` for a one-character literal. -/
def startsWithChar (s : String) (c : Char) : Bool := s.data.head? == some c

/-- Lookahead of the `(?!\d)` kind: the next character, if any, is not a
digit. -/
def headNotDigit : List Char → Bool
  | [] => true
  | c :: _ => !(c.isDigit)

/-- Left-to-right scan of Python `RMA_ANY8_IN_TEXT_RX.findall`, pattern
`(?<!\d)\d{8}(?!\d)`: at each position, if the previous character was not a
digit (`prev = false`), the next 8 characters are digits and the following
character is not a digit, emit the 8-digit token and resume after it;
otherwise advance one character.  `fuel` bounds the recursion and is
instantiated with the string length. -/
def scan8F : Nat → Bool → List Char → List String
  | 0, _, _ => []
  | _ + 1, _, [] => []
  | fuel + 1, prev, c :: cs =>
    let chunk := (c :: cs).take 8
    if !prev && chunk.length == 8 && chunk.all Char.isDigit
        && headNotDigit ((c :: cs).drop 8) then
      String.mk chunk :: scan8F fuel true ((c :: cs).drop 8)
    else
      scan8F fuel c.isDigit cs

/-- `RMA_ANY8_IN_TEXT_RX.findall(s)`. -/
def findall8 (s : String) : List String := scan8F s.data.length false s.data

/-- ASCII word character, for the `\b` boundaries of `UPS_TN_REGEX`. -/
def isWordChar (c : Char) : Bool := c.isAlphanum || c == '_'

/-- Left-to-right scan of `UPS_TN_REGEX.finditer`, pattern
`\b1Z[0-9A-Z]{16}\b` with `re.IGNORECASE`: `prev` records whether the
previous character was a word character (so `\b` holds iff `prev = false`).
Matches are reported as found (not yet uppercased).  -/
def scanTNF : Nat → Bool → List Char → List String
  | 0, _, _ => []
  | _ + 1, _, [] => []
  | fuel + 1, prev, c :: cs =>
    let chunk := (c :: cs).take 18
    if !prev && chunk.length == 18
        && (chunk.take 1 == ['1'])
        && ((chunk.drop 1).take 1 == ['Z'] || (chunk.drop 1).take 1 == ['z'])
        && ((chunk.drop 2).all Char.isAlphanum)
        && headNotDigitWord ((c :: cs).drop 18) then
      String.mk chunk :: scanTNF fuel true ((c :: cs).drop 18)
    else
      scanTNF fuel (isWordChar c) cs
where
  /-- Trailing `\b`: next character, if any, is not a word character. -/
  headNotDigitWord : List Char → Bool
    | [] => true
    | c :: _ => !(isWordChar c)

/-- All `UPS_TN_REGEX` matches of a string, in order. -/
def tnFindAll (s : String) : List String := scanTNF s.data.length false s.data

/-- `_extract_tn_list(text)`: `[]` when `pd.isna(text)`, otherwise all
matches uppercased. -/
def extractTnList (v : Cell) : List String :=
  if pyIsNa v then []
  else (tnFindAll (pyStr v)).map (fun t => String.mk (t.data.map Char.toUpper))

/-- First-occurrence deduplication with a `seen` set, as in
`_clean_rma_string` and `extract_all_rma_tokens_from_row`. -/
def dedupGo (seen : List String) : List String → List String
  | [] => []
  | t :: ts => if seen.contains t then dedupGo seen ts
               else t :: dedupGo (t :: seen) ts

/-- De-duplicate in encounter order. -/
def dedupFirst (l : List String) : List String := dedupGo [] l

/-- The three-way stable partition used by `_clean_rma_string` and
`extract_all_rma_tokens_from_row`: tokens starting with `'6'`, then those
starting with `'7'`, then the rest, each group in original order. -/
def rank_tokens (l : List String) : List String :=
  l.filter (fun x => startsWithChar x '6')
    ++ l.filter (fun x => startsWithChar x '7')
    ++ l.filter (fun x => !(startsWithChar x '6' || startsWithChar x '7'))

/-- `_norm_na(value)`: normalize missing-data representations to `"N/A"`. -/
def norm_na (v : Cell) : String :=
  match v with
  | Cell.none => "N/A"
  | _ =>
    let t := pyStrip (pyStr v)
    if t = "" then "N/A"
    else
      let lower := pyLower t
      if lower = "nan" || lower = "none" || strContains lower "not avail" then "N/A"
      else t

/-- `_to_str(value, drop_na)`. -/
def to_str (v : Cell) (dropNa : Bool := false) : String :=
  let s := norm_na v
  if dropNa && s = "N/A" then "" else s

/-- `_clean_rma_string(value)`: best 8-digit token of the text, preferring
`'6'`-, then `'7'`-prefixed tokens, empty string if none. -/
def clean_rma_string (v : Cell) : String :=
  match v with
  | Cell.none => ""
  | Cell.nan => ""
  | Cell.str s0 =>
    let s1 := pyStrip s0
    let s := if strEndsWith s1 ".0" then String.mk (s1.data.take (s1.data.length - 2))
             else s1
    let tokens := findall8 s
    if tokens.isEmpty then ""
    else (rank_tokens (dedupFirst tokens)).headD ""

/-- `_canonical_status(value)`: ordered substring rules over the lowered
trimmed text. -/
def canonical_status (v : Cell) : String :=
  let s := pyLower (pyStrip (pyStrOrEmpty v))
  if strContains s "delivered" then "Delivered"
  else if strContains s "exception" then "Exception"
  else if strContains s "in transit" then "In Transit"
  else if strContains s "out for delivery" || strContains s "out of delivery" then
    "Out for Delivery"
  else if strContains s "manifest" then "Manifest"
  else if strContains s "void" then "Void"
  else if strContains s "not avail" || s = "" then "N/A"
  else if pyStrip (pyStr v) = "" then "N/A" else pyStrip (pyStr v)

/-- A row: association list from column names to cells, in column order. -/
abbrev Row := List (String × Cell)

/-- A pandas DataFrame: the column schema plus the rows. -/
structure Table where
  cols : List String
  rows : List Row
deriving DecidableEq

/-- `pd.DataFrame.empty`: no rows or no columns. -/
def tableEmpty (t : Table) : Bool := t.rows.isEmpty || t.cols.isEmpty

/-- `row.get(col)` (pandas `Series.get`, default `None` represented as
`Option.none`): first cell stored under the column name. -/
def rowGet (r : Row) (k : String) : Option Cell :=
  (r.find? (fun p => p.1 == k)).map (fun p => p.2)

/-- `row.get(col, default)`. -/
def rowGetD (r : Row) (k : String) (d : Cell) : Cell := (rowGet r k).getD d

/-- The value sequence of one column, row by row (missing entries read as
the empty string, which cannot occur on aligned tables). -/
def colValues (t : Table) (c : String) : List Cell :=
  t.rows.map (fun r => rowGetD r c (Cell.str ""))

/-- Schema/row alignment: every row stores exactly the schema columns, in
order.  Always true of real DataFrames. -/
def Table.Aligned (t : Table) : Prop :=
  ∀ r ∈ t.rows, r.map Prod.fst = t.cols

/-- The header-variant dictionary of `map_new_columns`, in source order. -/
def COLUMN_MAPPING : List (String × String) :=
  [("manifest date", "Manifest Date"),
   ("package reference no. 1", "Package Reference No. 1"),
   ("package reference no. 2", "Package Reference No. 2"),
   ("rma number", "RMA Number"),
   ("tracking number", "Tracking Number"),
   ("tracking number - details", "Tracking Number - Details"),
   ("status", "Status"),
   ("shipper name", "Shipper Name"),
   ("ship to", "Ship To"),
   ("scheduled delivery", "Scheduled Delivery"),
   ("original scheduled delivery date", "Original Scheduled Delivery Date"),
   ("date delivered", "Date Delivered"),
   ("exception description", "Exception Description"),
   ("exception resolution", "Exception Resolution"),
   ("ship to location", "Ship To Location"),
   ("weight", "Weight")]

/-- `mapping.get(str(c).lower().strip(), c)`. -/
def renameCol (c : String) : String :=
  (COLUMN_MAPPING.lookup (pyStrip (pyLower c))).getD c

/-- The canonical column names (`mapping.values()`), in source order. -/
def CANONICAL_COLS : List String := COLUMN_MAPPING.map Prod.snd

/-- `map_new_columns(df)`: rename header variants to canonical names, then
add every still-missing canonical column with the empty string in each row.
The canonical names are pairwise distinct, so the source's one-at-a-time
`df[c] = ""` loop adds exactly the canonical names missing after renaming,
appended in `mapping.values()` order, which is what is computed here. -/
def map_new_columns (t : Table) : Table :=
  let cols1 := t.cols.map renameCol
  let rows1 := t.rows.map (fun r => r.map (fun p => (renameCol p.1, p.2)))
  let missing := CANONICAL_COLS.filter (fun c => !(cols1.contains c))
  { cols := cols1 ++ missing,
    rows := rows1.map (fun r => r ++ missing.map (fun c => (c, Cell.str ""))) }

/-- The token pool of `extract_all_rma_tokens_from_row`: walk the row's
columns in order, skip `None`/`NaN` and blank cells, and collect all
`RMA_ANY8_IN_TEXT_RX` matches of each trimmed cell text. -/
def rowPool (r : Row) : List String :=
  r.foldl
    (fun pool p =>
      match p.2 with
      | Cell.none => pool
      | Cell.nan => pool
      | Cell.str s =>
        let t := pyStrip s
        if t = "" then pool else pool ++ findall8 t)
    []

/-- `extract_all_rma_tokens_from_row(row)`: de-duplicated pool, ranked
6-then-7-then-rest. -/
def extract_all_rma_tokens_from_row (r : Row) : List String :=
  let pool := rowPool r
  if pool.isEmpty then [] else rank_tokens (dedupFirst pool)

/-- `sources_for_token(tok)` inside `build_new_norm`: the trimmed texts of
all row cells whose token set contains `tok`, or `[""]` if none. -/
def sources_for_token (r : Row) (tok : String) : List String :=
  let hits :=
    r.foldl
      (fun hits p =>
        match p.2 with
        | Cell.none => hits
        | Cell.nan => hits
        | Cell.str s =>
          let t := pyStrip s
          if t = "" then hits
          else if (findall8 t).contains tok then hits ++ [t] else hits)
      []
  if hits.isEmpty then [""] else hits

/-- The column order of the DataFrame built at the end of `build_new_norm`. -/
def NORM_COLS : List String :=
  ["Manifest Date", "Original RMA", "RMA Number", "Tracking Number",
   "Status", "Shipper Name", "Ship To", "Scheduled Delivery",
   "Date Delivered", "Exception Description", "Exception Resolution",
   "Ship To Location", "Weight", "Package Reference No. 2"]

/-- The shipment attributes shared by both emitted-row shapes of
`build_new_norm` (everything except the first four columns). -/
def commonTail (r : Row) : Row :=
  [("Status", Cell.str (canonical_status (rowGetD r "Status" (Cell.str "")))),
   ("Shipper Name", Cell.str (to_str (rowGetD r "Shipper Name" (Cell.str "")))),
   ("Ship To", Cell.str (to_str (rowGetD r "Ship To" (Cell.str "")))),
   ("Scheduled Delivery",
     Cell.str (to_str (rowGetD r "Scheduled Delivery" (Cell.str "")))),
   ("Date Delivered",
     Cell.str (to_str (rowGetD r "Date Delivered" (Cell.str "")))),
   ("Exception Description",
     Cell.str (to_str (rowGetD r "Exception Description" (Cell.str "")))),
   ("Exception Resolution",
     Cell.str (to_str (rowGetD r "Exception Resolution" (Cell.str "")))),
   ("Ship To Location",
     Cell.str (to_str (rowGetD r "Ship To Location" (Cell.str "")))),
   ("Weight", Cell.str (to_str (rowGetD r "Weight" (Cell.str "")))),
   ("Package Reference No. 2",
     Cell.str (to_str (rowGetD r "Package Reference No. 2" (Cell.str ""))))]

/-- One emitted row of `build_new_norm` for token `tok`. -/
def outRow (r : Row) (tn : String) (tok : String) : Row :=
  ("Manifest Date", Cell.str (to_str (rowGetD r "Manifest Date" (Cell.str ""))))
    :: ("Original RMA", Cell.str ((sources_for_token r tok).headD ""))
    :: ("RMA Number", Cell.str tok)
    :: ("Tracking Number", Cell.str (pyUpper tn))
    :: commonTail r

/-- The placeholder row emitted when no 8-digit token is found in a record. -/
def placeholderRow (r : Row) (tn : String) : Row :=
  ("Manifest Date", Cell.str (to_str (rowGetD r "Manifest Date" (Cell.str ""))))
    :: ("Original RMA",
         Cell.str (pyStrip (pyStrOrEmpty (rowGetD r "RMA Number" (Cell.str "")))))
    :: ("RMA Number", Cell.str "")
    :: ("Tracking Number", Cell.str (pyUpper tn))
    :: commonTail r

/-- The tracking-number resolution of `build_new_norm`: the trimmed
`Tracking Number` field if non-blank, else the first `UPS_TN_REGEX` match
of `Tracking Number - Details`, else `none` (record skipped). -/
def resolveTn (r : Row) : Option String :=
  let tn := pyStrip (pyStrOrEmpty (rowGetD r "Tracking Number" (Cell.str "")))
  if tn = "" then
    match extractTnList (rowGetD r "Tracking Number - Details" (Cell.str "")) with
    | [] => Option.none
    | t :: _ => some t
  else some tn

/-- The rows `build_new_norm` emits for one harmonized record. -/
def recordRows (r : Row) : List Row :=
  match resolveTn r with
  | Option.none => []
  | some tn =>
    let toks := extract_all_rma_tokens_from_row r
    if toks.isEmpty then [placeholderRow r tn]
    else toks.map (fun tok => outRow r tn tok)

/-- `normalize_rma_column_inplace(df)`: map `_clean_rma_string` over the
`RMA Number` column when it exists (modelled functionally). -/
def normalize_rma_column (t : Table) : Table :=
  if t.cols.contains "RMA Number" then
    { cols := t.cols,
      rows := t.rows.map (fun r =>
        r.map (fun p =>
          if p.1 = "RMA Number" then (p.1, Cell.str (clean_rma_string p.2)) else p)) }
  else t

/-- `build_new_norm(new_df)`: harmonize, expand each record into per-token
rows (or a placeholder), assemble the 14-column frame, then re-clean the
`RMA Number` column. -/
def build_new_norm (t : Table) : Table :=
  let t1 := map_new_columns t
  normalize_rma_column { cols := NORM_COLS, rows := t1.rows.flatMap recordRows }

/-- `_pick_best_rma(candidates)`: keep the candidates whose trimmed form is
exactly 8 digits; the first matching `^6\d{7}$` wins, else the first kept
candidate, else `""`. -/
def pick_best_rma (candidates : List String) : String :=
  if candidates.isEmpty then ""
  else
    let only8 := candidates.filter (fun c => isDigits8 (pyStrip c))
    if only8.isEmpty then ""
    else
      match only8.find? (fun c => isPref6Rx c) with
      | some c => c
      | Option.none => only8.headD ""

/-- The `tn_to_pr2` dictionary of `patch_rma_na_with_pr2`, as a lookup
function with default `""` (matching `dict.get(key, "")`): rows with a
blank tracking number are skipped, later rows overwrite earlier ones. -/
def tn_to_pr2 (norm : Table) : String → String :=
  norm.rows.foldl
    (fun d r =>
      let tn := pyUpper (pyStrip (pyStrOrEmpty (rowGetD r "Tracking Number" (Cell.str ""))))
      if tn = "" then d
      else
        let pr2 := pyStrip (pyStrOrEmpty (rowGetD r "Package Reference No. 2" (Cell.str "")))
        let best := pick_best_rma (findall8 pr2)
        fun k => if k = tn then best else d k)
    (fun _ => "")

/-- The per-row `fallback_rma(val, tn_details)` closure of
`patch_rma_na_with_pr2`, with its dictionary `d`. -/
def fallback_rma (d : String → String) (val : Cell) (tnDetails : Cell) : String :=
  let s := pyStrip (pyStrOrEmpty val)
  if s ≠ "" && pyUpper s != "N/A" && isDigits8 s then s
  else if cellTruthy tnDetails then
    match extractTnList tnDetails with
    | [] => "N/A"
    | t :: _ =>
      let pr2Best := d t
      if isDigits8 pr2Best then pr2Best else "N/A"
  else "N/A"

/-- Writing a whole column (`out["RMA Number"] = series`): overwrite the
cells stored under the name when the schema has it, else append the new
column. -/
def setCol (cols : List String) (k : String) (r : Row) (v : Cell) : Row :=
  if cols.contains k then
    r.map (fun p => if p.1 = k then (p.1, v) else p)
  else r ++ [(k, v)]

/-- `patch_rma_na_with_pr2(reconciled_df, new_norm_df)`. -/
def patch_rma_na_with_pr2 (reconciled norm : Table) : Table :=
  if tableEmpty reconciled || tableEmpty norm then reconciled
  else
    let d := tn_to_pr2 norm
    { cols := if reconciled.cols.contains "RMA Number" then reconciled.cols
              else reconciled.cols ++ ["RMA Number"],
      rows := reconciled.rows.map (fun r =>
        setCol reconciled.cols "RMA Number" r
          (Cell.str (fallback_rma d (rowGetD r "RMA Number" (Cell.str ""))
            (rowGetD r "Tracking Number - Details" (Cell.str ""))))) }

/-- `FINAL_COLS` from `config.py`. -/
def FINAL_COLS : List String :=
  ["Manifest Date", "RMA Number", "Tracking Number - Details", "Status",
   "Shipper Name", "Ship To", "Scheduled Delivery", "Date Delivered",
   "Exception Description", "Exception Resolution", "Weight"]

/-- The `CONS PICK UP` blocklist of `build_final_output_df`: identifiers of
normalized rows whose non-blank `Original RMA` text, uppercased, contains
the phrase, and whose trimmed `RMA Number` is exactly 8 digits. -/
def blockedSet (norm : Table) : List String :=
  norm.rows.filterMap (fun r =>
    let original := pyStrip (pyStrOrEmpty (rowGetD r "Original RMA" (Cell.str "")))
    let cleaned := pyStrip (pyStrOrEmpty (rowGetD r "RMA Number" (Cell.str "")))
    if original ≠ "" && strContains (pyUpper original) "CONS PICK UP"
        && isDigits8 cleaned then
      some cleaned
    else Option.none)

/-- `df.drop(columns=[...])`, applied to the columns that are present. -/
def dropColumns (t : Table) (drops : List String) : Table :=
  { cols := t.cols.filter (fun c => !(drops.contains c)),
    rows := t.rows.map (fun r => r.filter (fun p => !(drops.contains p.1))) }

/-- Cell equality against a Python string (`Series.isin`): only string
cells compare equal to strings. -/
def cellEqStr (v : Cell) (s : String) : Bool :=
  match v with
  | Cell.str x => x == s
  | _ => false

/-- The `for c in FINAL_COLS: if c not in df.columns: df[c] = ""` loop.
`FINAL_COLS` has no duplicate names, so the loop appends exactly the final
columns missing at entry, in `FINAL_COLS` order. -/
def addMissingFinal (t : Table) : Table :=
  let miss := FINAL_COLS.filter (fun c => !(t.cols.contains c))
  { cols := t.cols ++ miss,
    rows := t.rows.map (fun r => r ++ miss.map (fun c => (c, Cell.str ""))) }

/-- The `df_out[...fullmatch...]` filter: keep only rows whose identifier,
as a string, is exactly 8 digits. -/
def filterValidRma (t : Table) : Table :=
  { cols := t.cols,
    rows := t.rows.filter (fun r =>
      isDigits8 (pyStr (rowGetD r "RMA Number" (Cell.str "")))) }

/-- The `if blocked: df_out[~isin(...)]` filter: drop rows whose identifier
is in the (non-empty) blocklist. -/
def filterBlocked (blocked : List String) (t : Table) : Table :=
  if blocked.isEmpty then t
  else
    { cols := t.cols,
      rows := t.rows.filter (fun r =>
        !(blocked.any (fun b =>
          cellEqStr (rowGetD r "RMA Number" (Cell.str "")) b))) }

/-- The final `df_out[FINAL_COLS]` projection. -/
def projectFinal (t : Table) : Table :=
  { cols := FINAL_COLS,
    rows := t.rows.map (fun r =>
      FINAL_COLS.map (fun c => (c, rowGetD r c (Cell.str "")))) }

/-- `build_final_output_df(reconciled_df, new_norm_df)`.  The source has no
empty-input guard of its own: selecting the `RMA Number` column of a frame
that lacks it raises `KeyError`, modelled as `Except.error`. -/
def build_final_output_df (reconciled norm : Table) : Except String Table :=
  let df0 := patch_rma_na_with_pr2 reconciled norm
  let blocked := blockedSet norm
  let df1 := dropColumns df0 ["Tracking Number", "Ship To Location", "Original RMA"]
  let df2 := normalize_rma_column df1
  if df2.cols.contains "RMA Number" then
    Except.ok (projectFinal (addMissingFinal (filterBlocked blocked (filterValidRma df2))))
  else Except.error "KeyError: RMA Number"

/-- Spec-side companion of `_pick_best_rma` for candidate lists that are
already exactly-8-digit tokens, following the spec's words: prefer a token
starting with `'6'`, otherwise the first candidate in original order. -/
def specPickBest (l : List String) : String :=
  match l.find? (fun c => startsWithChar c '6') with
  | some c => c
  | Option.none => l.headD ""

/-- Spec-side fallback map of §4.6: for a tracking-number key, the best
valid 8-digit token of the secondary-reference field of the LAST row of the
normalized table bearing that tracking number (upper-cased, trimmed). -/
def specFallbackMap (norm : Table) (k : String) : String :=
  match norm.rows.reverse.find? (fun r =>
      pyUpper (pyStrip (pyStrOrEmpty (rowGetD r "Tracking Number" (Cell.str "")))) == k) with
  | some r =>
    specPickBest (findall8
      (pyStrip (pyStrOrEmpty (rowGetD r "Package Reference No. 2" (Cell.str "")))))
  | Option.none => ""

/-- The identifier C2 predicts for one main-table row, amended to match the
code: all three checks are made on the TRIMMED string form of the
identifier, and the kept value is that trimmed form. -/
def specFallbackAmended (norm : Table) (r : Row) : String :=
  let s := pyStrip (pyStrOrEmpty (rowGetD r "RMA Number" (Cell.str "")))
  if s ≠ "" && pyUpper s != "N/A" && isDigits8 s then s
  else
    match extractTnList (rowGetD r "Tracking Number - Details" (Cell.str "")) with
    | [] => "N/A"
    | t :: _ =>
      let v := specFallbackMap norm t
      if isDigits8 v then v else "N/A"

/-- The identifier C2, as frozen, predicts for one main-table row: the raw
(untrimmed) identifier is kept unchanged when it is non-empty, not the
sentinel, and matches `^\d{8}$`; every other case goes through the
fallback map or becomes the sentinel. -/
def claimFallbackC2 (norm : Table) (r : Row) : String :=
  let s := pyStrOrEmpty (rowGetD r "RMA Number" (Cell.str ""))
  if s ≠ "" && s != "N/A" && isDigits8 s then s
  else
    match extractTnList (rowGetD r "Tracking Number - Details" (Cell.str "")) with
    | [] => "N/A"
    | t :: _ =>
      let v := specFallbackMap norm t
      if isDigits8 v then v else "N/A"

/-- Claim C2 as stated, at a pair of inputs: the patched identifier column
is row-for-row the value predicted by `claimFallbackC2`. -/
def c2ClaimAt (m n : Table) : Prop :=
  colValues (patch_rma_na_with_pr2 m n) "RMA Number" =
    m.rows.map (fun r => Cell.str (claimFallbackC2 n r))

/-- C2 counterexample main table: a whitespace-padded valid identifier. -/
def c2Main : Table :=
  { cols := ["RMA Number", "Tracking Number - Details"],
    rows := [[("RMA Number", Cell.str " 12345678 "),
              ("Tracking Number - Details", Cell.str "")]] }

/-- C2 counterexample normalized table (non-empty, one keyed row). -/
def c2Norm : Table :=
  { cols := ["Tracking Number", "Package Reference No. 2"],
    rows := [[("Tracking Number", Cell.str "1ZAAAAAAAAAAAAAAAA"),
              ("Package Reference No. 2", Cell.str "")]] }

/-- Claim C6 as stated, at a pair of inputs: every cell of every final row,
over all eleven final columns, is a non-empty string. -/
def c6ClaimAt (m n : Table) : Prop :=
  ∀ t, build_final_output_df m n = Except.ok t →
    ∀ r ∈ t.rows, ∀ c ∈ FINAL_COLS, pyStr (rowGetD r c (Cell.str "")) ≠ ""

/-- C6 counterexample main table: a valid identifier but no other columns. -/
def c6Main : Table :=
  { cols := ["RMA Number"], rows := [[("RMA Number", Cell.str "12345678")]] }

/-- C6 counterexample normalized table: empty. -/
def c6Norm : Table := { cols := [], rows := [] }

/-- The empty table (no columns, no rows). -/
def emptyTable : Table := { cols := [], rows := [] }

/-- C9 witness main table. -/
def c9MainW : Table :=
  { cols := ["RMA Number", "Status"],
    rows := [[("RMA Number", Cell.str "N/A"), ("Status", Cell.str "Void")]] }

/-- C9 witness normalized table. -/
def c9NormW : Table :=
  { cols := ["Tracking Number"],
    rows := [[("Tracking Number", Cell.str "1ZAAAAAAAAAAAAAAAA")]] }

/-- C3 witness main table. -/
def c3MainW : Table :=
  { cols := ["RMA Number"], rows := [[("RMA Number", Cell.str "61111111")]] }

/-- C3 witness normalized table, with one blocked identifier. -/
def c3NormW : Table :=
  { cols := NORM_COLS,
    rows := [[("Original RMA", Cell.str "CONS PICK UP 71234567"),
              ("RMA Number", Cell.str "71234567"),
              ("Tracking Number", Cell.str "1ZAAAAAAAAAAAAAAAA"),
              ("Package Reference No. 2", Cell.str "")]] }

/-- Claim C7 as stated, at a pair of inputs: every public entry point
short-circuits, returns its (empty) input as-is, and raises no error. -/
def c7ClaimAt (m n : Table) : Prop :=
  build_new_norm m = m
  ∧ patch_rma_na_with_pr2 m n = m
  ∧ ∃ t, build_final_output_df m n = Except.ok t ∧ t = m

/-- The final row produced for the C6 counterexample input. -/
def c6Row : Row :=
  [("Manifest Date", Cell.str ""), ("RMA Number", Cell.str "12345678"),
   ("Tracking Number - Details", Cell.str ""), ("Status", Cell.str ""),
   ("Shipper Name", Cell.str ""), ("Ship To", Cell.str ""),
   ("Scheduled Delivery", Cell.str ""), ("Date Delivered", Cell.str ""),
   ("Exception Description", Cell.str ""), ("Exception Resolution", Cell.str ""),
   ("Weight", Cell.str "")]

/-- The final table produced for the C6 counterexample input. -/
def c6Final : Table := { cols := FINAL_COLS, rows := [c6Row] }

/-- The final row produced for the C3 witness input. -/
def c3RowW : Row :=
  [("Manifest Date", Cell.str ""), ("RMA Number", Cell.str "61111111"),
   ("Tracking Number - Details", Cell.str ""), ("Status", Cell.str ""),
   ("Shipper Name", Cell.str ""), ("Ship To", Cell.str ""),
   ("Scheduled Delivery", Cell.str ""), ("Date Delivered", Cell.str ""),
   ("Exception Description", Cell.str ""), ("Exception Resolution", Cell.str ""),
   ("Weight", Cell.str "")]

/-- The final table produced for the C3 witness input. -/
def c3FinalW : Table := { cols := FINAL_COLS, rows := [c3RowW] }

/-- Soundness of the `(?<!\d)\d{8}(?!\d)` scan: every emitted token is an
8-digit run of the input that is preceded (if at all) by a non-digit — or
starts the scan with no pending digit — and followed (if at all) by a
non-digit. -/
theorem scan8F_sound (fuel : Nat) :
    ∀ (prev : Bool) (cs : List Char) (t : String), t ∈ scan8F fuel prev cs →
      t.data.length = 8 ∧ (∀ c ∈ t.data, c.isDigit = true) ∧
      ∃ pre post, cs = pre ++ t.data ++ post ∧
        (pre = [] → prev = false) ∧
        (∀ d, pre.getLast? = some d → d.isDigit = false) ∧
        (∀ d, post.head? = some d → d.isDigit = false) := by
  induction fuel with
  | zero => intro prev cs t h; simp [scan8F] at h
  | succ fuel ih =>
    intro prev cs t h
    match cs with
    | [] => simp [scan8F] at h
    | c :: cs =>
      rw [scan8F] at h
      by_cases hcond : (!prev && ((c :: cs).take 8).length == 8
          && ((c :: cs).take 8).all Char.isDigit
          && headNotDigit ((c :: cs).drop 8)) = true
      · rw [if_pos hcond] at h
        simp only [Bool.and_eq_true, Bool.not_eq_true', beq_iff_eq] at hcond
        obtain ⟨⟨⟨hprev, hlen⟩, hdig⟩, hlook⟩ := hcond
        rcases List.mem_cons.mp h with heq | hrec
        · subst heq
          refine ⟨hlen, ?_, [], (c :: cs).drop 8, ?_, fun _ => hprev, ?_, ?_⟩
          · intro x hx; exact List.all_eq_true.mp hdig x hx
          · simp [List.take_append_drop]
          · intro d hd; simp at hd
          · intro d hd
            cases hdrop : (c :: cs).drop 8 with
            | nil => rw [hdrop] at hd; simp at hd
            | cons e es =>
              rw [hdrop] at hd
              simp only [List.head?_cons, Option.some.injEq] at hd
              subst hd
              rw [hdrop] at hlook
              simpa [headNotDigit] using hlook
        · obtain ⟨hl, hd, pre1, post1, heq, hpre1, hlast1, hpost1⟩ :=
            ih true ((c :: cs).drop 8) t hrec
          have hpre1ne : pre1 ≠ [] := fun hnil => by simpa using hpre1 hnil
          refine ⟨hl, hd, (c :: cs).take 8 ++ pre1, post1, ?_, ?_, ?_, hpost1⟩
          · conv_lhs => rw [← List.take_append_drop 8 (c :: cs)]
            rw [heq]
            simp [List.append_assoc]
          · intro hnil
            rcases List.append_eq_nil.mp hnil with ⟨htake, -⟩
            rw [htake] at hlen; simp at hlen
          · intro d hd2
            rw [List.getLast?_append_of_ne_nil _ hpre1ne] at hd2
            exact hlast1 d hd2
      · rw [if_neg hcond] at h
        obtain ⟨hl, hd, pre1, post1, heq, hpre1, hlast1, hpost1⟩ :=
          ih c.isDigit cs t h
        refine ⟨hl, hd, c :: pre1, post1, ?_, ?_, ?_, hpost1⟩
        · rw [heq]; simp
        · intro hnil; simp at hnil
        · intro d hd2
          cases hp : pre1 with
          | nil =>
            subst hp
            simp only [List.getLast?_singleton, Option.some.injEq] at hd2
            subst hd2
            exact hpre1 rfl
          | cons p ps =>
            subst hp
            rw [List.getLast?_cons_cons] at hd2
            exact hlast1 d hd2

/-- C4: `extractIdentifierTokens` (the `RMA_ANY8_IN_TEXT_RX` scan used by
`_clean_rma_string` and `extract_all_rma_tokens_from_row`) is a pure
function of the text (determinism is definitional in this embedding);
every returned token is exactly 8 decimal digits; and every returned token
occurs in the text with no adjacent digit on either side, so it is never a
sub-run of a longer maximal digit run. -/
theorem c4_token_extraction (s t : String) (h : t ∈ findall8 s) :
    t.data.length = 8 ∧ (∀ c ∈ t.data, c.isDigit = true) ∧
    ∃ pre post, s.data = pre ++ t.data ++ post ∧
      (∀ d, pre.getLast? = some d → d.isDigit = false) ∧
      (∀ d, post.head? = some d → d.isDigit = false) := by
  obtain ⟨hl, hd, pre, post, heq, -, hlast, hpost⟩ :=
    scan8F_sound s.data.length false s.data t h
  exact ⟨hl, hd, pre, post, heq, hlast, hpost⟩

/-- Witness for C4 at the concrete text `"RMA 67024814, 123456789"` and
token `"67024814"` (the 9-digit run yields no token). -/
theorem c4_token_extraction_witness :
    (("67024814" : String) ∈ findall8 "RMA 67024814, 123456789") ∧
    (("67024814" : String).data.length = 8 ∧
      (∀ c ∈ ("67024814" : String).data, c.isDigit = true) ∧
      ∃ pre post, ("RMA 67024814, 123456789" : String).data
            = pre ++ ("67024814" : String).data ++ post ∧
        (∀ d, pre.getLast? = some d → d.isDigit = false) ∧
        (∀ d, post.head? = some d → d.isDigit = false)) :=
  ⟨by decide, c4_token_extraction _ _ (by decide)⟩

/-- A string starting with `'6'` does not start with `'7'`. -/
theorem startsSix_not_seven (x : String) (h : startsWithChar x '6' = true) :
    startsWithChar x '7' = false := by
  unfold startsWithChar at *
  cases hd : x.data.head? with
  | none => simp_all
  | some c =>
    have hx : x.data.head? = some '6' := by simpa using h
    rw [hd] at hx
    have hc : c = '6' := Option.some.inj hx
    subst hc
    decide

/-- The three-way partition of `rank_tokens` is a permutation of its
input. -/
theorem rank_tokens_perm (l : List String) : (rank_tokens l).Perm l := by
  unfold rank_tokens
  have h6 := List.filter_append_perm (fun x => startsWithChar x '6') l
  have h7 := List.filter_append_perm (fun x => startsWithChar x '7')
    (l.filter (fun x => !startsWithChar x '6'))
  have e1 : (l.filter (fun x => !startsWithChar x '6')).filter
      (fun x => startsWithChar x '7') = l.filter (fun x => startsWithChar x '7') := by
    rw [List.filter_filter]
    apply List.filter_congr
    intro x hx
    cases h7x : startsWithChar x '7'
    · simp
    · cases h6x : startsWithChar x '6'
      · simp
      · rw [startsSix_not_seven x h6x] at h7x; exact absurd h7x (by simp)
  have e2 : (l.filter (fun x => !startsWithChar x '6')).filter
      (fun x => !startsWithChar x '7')
      = l.filter (fun x => !(startsWithChar x '6' || startsWithChar x '7')) := by
    rw [List.filter_filter]
    apply List.filter_congr
    intro x hx
    cases h7x : startsWithChar x '7' <;> cases h6x : startsWithChar x '6' <;> simp
  have hstep : List.Perm
      (l.filter (fun x => startsWithChar x '7')
        ++ l.filter (fun x => !(startsWithChar x '6' || startsWithChar x '7')))
      (l.filter (fun x => !startsWithChar x '6')) := by
    rw [← e1, ← e2]; exact h7
  rw [List.append_assoc]
  exact (List.Perm.append_left _ hstep).trans h6

/-- The rank step neither drops nor duplicates tokens. -/
theorem rank_tokens_length (l : List String) :
    (rank_tokens l).length = l.length :=
  (rank_tokens_perm l).length_eq

/-- C5: the partition step of `extract_all_rma_tokens_from_row` and
`_clean_rma_string` is a stable three-way partition by first-character
class: `'6'`-starting tokens first, then `'7'`-starting, then the rest,
each group keeping its original relative order; it is a permutation of the
input, so the length is preserved, nothing is dropped and nothing is
duplicated. -/
theorem c5_rank_tokens_stable (l : List String) :
    rank_tokens l
        = l.filter (fun x => startsWithChar x '6')
          ++ l.filter (fun x => startsWithChar x '7')
          ++ l.filter (fun x => !(startsWithChar x '6' || startsWithChar x '7'))
      ∧ (rank_tokens l).Perm l
      ∧ (rank_tokens l).length = l.length
      ∧ ∀ x, (rank_tokens l).count x = l.count x :=
  ⟨rfl, rank_tokens_perm l, rank_tokens_length l,
    fun x => (rank_tokens_perm l).count_eq x⟩

/-- `List.contains` agrees with membership for strings. -/
theorem contains_mem (l : List String) (a : String) : l.contains a = true ↔ a ∈ l := by
  simp

/-- Membership in the seen-set deduplication. -/
theorem dedupGo_mem (l : List String) :
    ∀ (seen : List String) (x : String),
      x ∈ dedupGo seen l ↔ (x ∈ l ∧ x ∉ seen) := by
  induction l with
  | nil => intro seen x; simp [dedupGo]
  | cons t ts ih =>
    intro seen x
    rw [dedupGo]
    by_cases hc : seen.contains t
    · rw [if_pos hc]
      rw [ih]
      constructor
      · rintro ⟨hx, hns⟩; exact ⟨List.mem_cons_of_mem _ hx, hns⟩
      · rintro ⟨hx, hns⟩
        rcases List.mem_cons.mp hx with rfl | hx
        · exact absurd ((contains_mem _ _).mp hc) hns
        · exact ⟨hx, hns⟩
    · rw [if_neg hc]
      constructor
      · intro hx
        rcases List.mem_cons.mp hx with rfl | hx
        · exact ⟨List.mem_cons_self _ _, fun hs => hc ((contains_mem _ _).mpr hs)⟩
        · obtain ⟨hmem, hns⟩ := (ih (t :: seen) x).mp hx
          exact ⟨List.mem_cons_of_mem _ hmem,
            fun hs => hns (List.mem_cons_of_mem _ hs)⟩
      · rintro ⟨hx, hns⟩
        by_cases hxt : x = t
        · subst hxt; exact List.mem_cons_self _ _
        · rcases List.mem_cons.mp hx with rfl | hx
          · exact absurd rfl hxt
          · exact List.mem_cons_of_mem _ ((ih (t :: seen) x).mpr
              ⟨hx, fun hs => by
                rcases List.mem_cons.mp hs with rfl | hs
                · exact hxt rfl
                · exact hns hs⟩)

/-- The deduplicated list has no duplicates. -/
theorem dedupGo_nodup (l : List String) :
    ∀ seen : List String, (dedupGo seen l).Nodup := by
  induction l with
  | nil => intro seen; simp [dedupGo]
  | cons t ts ih =>
    intro seen
    rw [dedupGo]
    by_cases hc : seen.contains t
    · rw [if_pos hc]; exact ih seen
    · rw [if_neg hc]
      refine List.Nodup.cons ?_ (ih (t :: seen))
      intro hmem
      exact ((dedupGo_mem ts (t :: seen) t).mp hmem).2 (List.mem_cons_self _ _)

/-- Deduplicating a non-empty list yields a non-empty list. -/
theorem dedupFirst_ne_nil (l : List String) (h : l ≠ []) : dedupFirst l ≠ [] := by
  match l with
  | [] => exact absurd rfl h
  | t :: ts =>
    have : t ∈ dedupFirst (t :: ts) :=
      (dedupGo_mem (t :: ts) [] t).mpr ⟨List.mem_cons_self _ _, by simp⟩
    exact List.ne_nil_of_mem this

/-- The per-record row count of `build_new_norm`: zero when no tracking
number resolves, otherwise one row per distinct 8-digit token (one
placeholder row when there is none). -/
theorem recordRows_length (r : Row) :
    (recordRows r).length =
      if (resolveTn r).isSome then max 1 (dedupFirst (rowPool r)).length else 0 := by
  unfold recordRows
  cases hres : resolveTn r with
  | none => simp
  | some tn =>
    simp only [Option.isSome_some, if_true]
    unfold extract_all_rma_tokens_from_row
    by_cases hp : (rowPool r).isEmpty
    · have hpool : rowPool r = [] := by simpa [List.isEmpty_iff] using hp
      simp [hp, hpool, dedupFirst, dedupGo]
    · have hpool : rowPool r ≠ [] := by simpa [List.isEmpty_iff] using hp
      have hded : dedupFirst (rowPool r) ≠ [] := dedupFirst_ne_nil _ hpool
      have hlen : (rank_tokens (dedupFirst (rowPool r))).length
          = (dedupFirst (rowPool r)).length := rank_tokens_length _
      have hne : (rank_tokens (dedupFirst (rowPool r))).isEmpty = false := by
        rw [List.isEmpty_eq_false]
        intro hnil
        rw [hnil] at hlen
        exact hded (List.length_eq_zero.mp hlen.symm)
      have hge : 1 ≤ (dedupFirst (rowPool r)).length := by
        cases hd : dedupFirst (rowPool r) with
        | nil => exact absurd hd hded
        | cons a as => simp
      simp [hp, hne, hlen, Nat.max_eq_right hge]

/-- C1: in `build_new_norm`, a record with a resolvable tracking number
(non-blank tracking-number field, or else at least one UPS match in the
details field) emits exactly `max 1 (number of distinct 8-digit tokens in
the record)` normalized rows; a record with no resolvable tracking number
emits zero rows (and no error is possible: the embedding is total).  The
distinct-token list is duplicate-free and contains exactly the tokens of
the record's pool, and the total row count of `build_new_norm` is the sum
of the per-record counts. -/
theorem c1_row_count_invariant :
    (∀ r : Row,
      (recordRows r).length =
        (if (resolveTn r).isSome then max 1 (dedupFirst (rowPool r)).length else 0)
      ∧ ((resolveTn r).isSome ↔
          (pyStrip (pyStrOrEmpty (rowGetD r "Tracking Number" (Cell.str ""))) ≠ ""
            ∨ extractTnList (rowGetD r "Tracking Number - Details" (Cell.str "")) ≠ []))
      ∧ (dedupFirst (rowPool r)).Nodup
      ∧ (∀ x, x ∈ dedupFirst (rowPool r) ↔ x ∈ rowPool r))
    ∧ ∀ t : Table, (build_new_norm t).rows.length
        = ((map_new_columns t).rows.map (fun r => (recordRows r).length)).sum := by
  constructor
  · intro r
    refine ⟨recordRows_length r, ?_, dedupGo_nodup _ [], ?_⟩
    · unfold resolveTn
      by_cases htn : pyStrip (pyStrOrEmpty (rowGetD r "Tracking Number" (Cell.str ""))) = ""
      · rw [if_pos htn]
        cases hext : extractTnList (rowGetD r "Tracking Number - Details" (Cell.str "")) with
        | nil => simp [htn, hext]
        | cons a as => simp [htn, hext]
      · rw [if_neg htn]
        simp [htn]
    · intro x
      rw [dedupFirst, dedupGo_mem]
      simp
  · intro t
    unfold build_new_norm normalize_rma_column
    have hmem : NORM_COLS.contains "RMA Number" = true := by decide
    rw [if_pos hmem]
    simp [List.length_flatMap, Function.comp_def]

/-- The tracking-number cell of every token row is the uppercased resolved
tracking number. -/
theorem rowGet_outRow_tn (r : Row) (tn tok : String) :
    rowGetD (outRow r tn tok) "Tracking Number" (Cell.str "")
      = Cell.str (pyUpper tn) := rfl

/-- The tracking-number cell of every placeholder row is the uppercased
resolved tracking number. -/
theorem rowGet_placeholder_tn (r : Row) (tn : String) :
    rowGetD (placeholderRow r tn) "Tracking Number" (Cell.str "")
      = Cell.str (pyUpper tn) := rfl

/-- C10: in `build_new_norm`, a record whose `Tracking Number` cell is the
float `NaN` is never skipped and never falls back to the details field:
its string form is `"nan"`, which is non-blank, so the record emits its
usual `max 1 distinctTokenCount` rows, all carrying tracking number
`"NAN"`.  The details-field fallback and the silent skip apply exactly
when the cell is absent, `None`, the empty string, or whitespace-only. -/
theorem c10_nan_tracking_number :
    (∀ r : Row, rowGet r "Tracking Number" = some Cell.nan →
      (recordRows r).length = max 1 (dedupFirst (rowPool r)).length ∧
      ∀ out ∈ recordRows r,
        rowGetD out "Tracking Number" (Cell.str "") = Cell.str "NAN")
    ∧ (∀ r : Row,
        (pyStrip (pyStrOrEmpty (rowGetD r "Tracking Number" (Cell.str ""))) = "" ↔
          rowGet r "Tracking Number" = Option.none
          ∨ rowGet r "Tracking Number" = some Cell.none
          ∨ ∃ s, rowGet r "Tracking Number" = some (Cell.str s) ∧ pyStrip s = "")) := by
  constructor
  · intro r h
    have hgetD : rowGetD r "Tracking Number" (Cell.str "") = Cell.nan := by
      unfold rowGetD; rw [h]; rfl
    have hnan : pyStrip (pyStrOrEmpty Cell.nan) = "nan" := by decide
    have hres : resolveTn r = some "nan" := by
      unfold resolveTn
      rw [hgetD, hnan]
      rw [if_neg (by decide : ¬ ("nan" : String) = "")]
    constructor
    · rw [recordRows_length r, hres]
      simp
    · intro out hout
      unfold recordRows at hout
      rw [hres] at hout
      have hout2 : out ∈
          (if (extract_all_rma_tokens_from_row r).isEmpty = true
            then [placeholderRow r "nan"]
            else (extract_all_rma_tokens_from_row r).map
              (fun tok => outRow r "nan" tok)) := hout
      have hup : pyUpper "nan" = "NAN" := by decide
      by_cases hemp : (extract_all_rma_tokens_from_row r).isEmpty = true
      · rw [if_pos hemp] at hout2
        rcases List.mem_singleton.mp hout2 with rfl
        rw [rowGet_placeholder_tn, hup]
      · rw [if_neg hemp] at hout2
        obtain ⟨tok, -, rfl⟩ := List.mem_map.mp hout2
        rw [rowGet_outRow_tn, hup]
  · intro r
    cases hro : rowGet r "Tracking Number" with
    | none =>
      have hgetD : rowGetD r "Tracking Number" (Cell.str "") = Cell.str "" := by
        simp [rowGetD, hro]
      rw [hgetD]
      constructor
      · intro _; exact Or.inl rfl
      · intro _; decide
    | some cell =>
      have hgetD : rowGetD r "Tracking Number" (Cell.str "") = cell := by
        simp [rowGetD, hro]
      rw [hgetD]
      cases cell with
      | none =>
        constructor
        · intro _; exact Or.inr (Or.inl rfl)
        · intro _; decide
      | nan =>
        constructor
        · intro hx; exact absurd hx (by decide)
        · rintro (h1 | h2 | ⟨s, h3, -⟩)
          · exact Option.noConfusion h1
          · simp at h2
          · simp at h3
      | str s =>
        constructor
        · intro hx; exact Or.inr (Or.inr ⟨s, rfl, hx⟩)
        · rintro (h1 | h2 | ⟨s2, h3, hs2⟩)
          · exact Option.noConfusion h1
          · simp at h2
          · simp only [Option.some.injEq, Cell.str.injEq] at h3
            subst h3
            exact hs2

/-- Witness for C10: a two-column row whose tracking cell is `NaN` and
which contains one 8-digit token. -/
theorem c10_nan_tracking_number_witness :
    (recordRows [("Tracking Number", Cell.nan),
        ("RMA Number", Cell.str "x 61111111")]).length
        = max 1 (dedupFirst (rowPool [("Tracking Number", Cell.nan),
            ("RMA Number", Cell.str "x 61111111")])).length
      ∧ rowGetD ((recordRows [("Tracking Number", Cell.nan),
            ("RMA Number", Cell.str "x 61111111")]).headD [])
          "Tracking Number" (Cell.str "") = Cell.str "NAN" :=
  ⟨(c10_nan_tracking_number.1 [("Tracking Number", Cell.nan),
      ("RMA Number", Cell.str "x 61111111")] rfl).1,
   (c10_nan_tracking_number.1 [("Tracking Number", Cell.nan),
      ("RMA Number", Cell.str "x 61111111")] rfl).2
     ((recordRows [("Tracking Number", Cell.nan),
        ("RMA Number", Cell.str "x 61111111")]).headD []) (by decide)⟩

/-- Overwriting the cells stored under key `k` does not change the first
cell found under a different key `c`. -/
theorem find?_setKey (k c : String) (v : Cell) (hc : c ≠ k) :
    ∀ r : Row, (r.map (fun p => if p.1 = k then (p.1, v) else p)).find?
        (fun p => p.1 == c)
      = r.find? (fun p => p.1 == c) := by
  intro r
  induction r with
  | nil => rfl
  | cons p ps ih =>
    rw [List.map_cons]
    by_cases hp : (p.1 == c) = true
    · have hpc : p.1 = c := by simpa using hp
      have hfk : (if p.1 = k then (p.1, v) else p) = p := by
        rw [if_neg]; intro hk; exact hc (by rw [← hpc]; exact hk)
      rw [hfk]
      have h1 : List.find? (fun q => q.1 == c)
          (p :: List.map (fun q => if q.1 = k then (q.1, v) else q) ps) = some p :=
        List.find?_cons_of_pos _ hp
      have h2 : List.find? (fun q => q.1 == c) (p :: ps) = some p :=
        List.find?_cons_of_pos _ hp
      rw [h1, h2]
    · have hneg : ((if p.1 = k then (p.1, v) else p).1 == c) = false := by
        by_cases hpk : p.1 = k
        · rw [if_pos hpk]; simpa using hp
        · rw [if_neg hpk]; simpa using hp
      have h1 : List.find? (fun q => q.1 == c)
            ((if p.1 = k then (p.1, v) else p)
              :: List.map (fun q => if q.1 = k then (q.1, v) else q) ps)
          = List.find? (fun q => q.1 == c)
              (List.map (fun q => if q.1 = k then (q.1, v) else q) ps) :=
        List.find?_cons_of_neg _ (by simp [hneg])
      have h2 : List.find? (fun q => q.1 == c) (p :: ps)
          = List.find? (fun q => q.1 == c) ps :=
        List.find?_cons_of_neg _ (by simpa using hp)
      rw [h1, h2]
      exact ih

/-- Writing the identifier column leaves every other column's cells
untouched. -/
theorem rowGet_setCol_ne (cols : List String) (k c : String) (hc : c ≠ k)
    (r : Row) (v : Cell) :
    rowGet (setCol cols k r v) c = rowGet r c := by
  unfold setCol
  by_cases hk : cols.contains k = true
  · rw [if_pos hk]
    unfold rowGet
    rw [find?_setKey k c v hc]
  · rw [if_neg hk]
    unfold rowGet
    rw [List.find?_append]
    have hone : ([(k, v)] : Row).find? (fun p => p.1 == c) = Option.none := by
      simp only [List.find?_cons, List.find?_nil]
      have : (k == c) = false := by
        simp only [beq_eq_false_iff_ne]
        exact fun h => hc h.symm
      rw [this]
    rw [hone]
    cases (r.find? (fun p => p.1 == c)) <;> rfl

/-- C9: `patch_rma_na_with_pr2` is pure (a new table is returned; the
embedding has no mutation), keeps the row count of the main table, and
leaves every column other than `RMA Number` equal, row for row, to the
input main table. -/
theorem c9_patch_frame (m n : Table) (c : String) (hc : c ≠ "RMA Number") :
    (patch_rma_na_with_pr2 m n).rows.length = m.rows.length
    ∧ colValues (patch_rma_na_with_pr2 m n) c = colValues m c := by
  unfold patch_rma_na_with_pr2
  by_cases hguard : (tableEmpty m || tableEmpty n) = true
  · rw [if_pos hguard]; exact ⟨rfl, rfl⟩
  · rw [if_neg hguard]
    refine ⟨by simp, ?_⟩
    unfold colValues
    simp only [List.map_map]
    apply List.map_congr_left
    intro r _
    simp only [Function.comp]
    unfold rowGetD
    rw [rowGet_setCol_ne m.cols "RMA Number" c hc]

/-- Witness for C9 at a concrete main table with a `Status` column. -/
theorem c9_patch_frame_witness :
    (patch_rma_na_with_pr2 c9MainW c9NormW).rows.length = c9MainW.rows.length
    ∧ colValues (patch_rma_na_with_pr2 c9MainW c9NormW) "Status"
      = colValues c9MainW "Status" :=
  c9_patch_frame c9MainW c9NormW "Status" (by decide)

/-- A successful association-list lookup returns a stored pair. -/
theorem lookup_mem (l : List (String × String)) :
    ∀ (k v : String), l.lookup k = some v → (k, v) ∈ l := by
  induction l with
  | nil => intro k v h; simp [List.lookup] at h
  | cons p ps ih =>
    intro k v h
    cases p with
    | mk k1 v1 =>
      by_cases hb : (k == k1) = true
      · have hk : k = k1 := by simpa using hb
        rw [List.lookup, hb] at h
        simp only [Option.some.injEq] at h
        subst hk; subst h
        exact List.mem_cons_self _ _
      · rw [List.lookup, Bool.eq_false_iff.mpr hb] at h
        exact List.mem_cons_of_mem _ (ih k v h)

/-- Every canonical column name maps to itself in the variant dictionary. -/
theorem mapping_self :
    ∀ p ∈ COLUMN_MAPPING, COLUMN_MAPPING.lookup (pyStrip (pyLower p.2)) = some p.2 := by
  decide

/-- Canonical names are fixed points of the rename step. -/
theorem renameCol_canonical (c : String) (h : c ∈ CANONICAL_COLS) :
    renameCol c = c := by
  obtain ⟨p, hp, hpc⟩ := List.mem_map.mp h
  subst hpc
  unfold renameCol
  rw [mapping_self p hp]
  rfl

/-- The rename step is idempotent on column names. -/
theorem renameCol_idem (c : String) : renameCol (renameCol c) = renameCol c := by
  cases h : COLUMN_MAPPING.lookup (pyStrip (pyLower c)) with
  | none =>
    have hcc : renameCol c = c := by unfold renameCol; rw [h]; rfl
    rw [hcc]; exact hcc
  | some v =>
    have hcv : renameCol c = v := by unfold renameCol; rw [h]; rfl
    rw [hcv]
    exact renameCol_canonical v
      (List.mem_map.mpr ⟨_, lookup_mem _ _ _ h, rfl⟩)

/-- A name the dictionary sends somewhere is sent to a canonical name;
contrapositive: a non-canonical name is never the image of a rename. -/
theorem renameCol_mem_canonical (k : String)
    (h : renameCol k ≠ k) : renameCol k ∈ CANONICAL_COLS := by
  cases hl : COLUMN_MAPPING.lookup (pyStrip (pyLower k)) with
  | none => exact absurd (by unfold renameCol; rw [hl]; rfl) h
  | some v =>
    have : renameCol k = v := by unfold renameCol; rw [hl]; rfl
    rw [this]
    exact List.mem_map.mpr ⟨_, lookup_mem _ _ _ hl, rfl⟩

/-- Two tables with the same schema and rows are equal. -/
theorem tableExt (a b : Table) (h1 : a.cols = b.cols) (h2 : a.rows = b.rows) :
    a = b := by
  cases a; cases b
  cases h1; cases h2
  rfl

/-- The schema produced by `map_new_columns`. -/
theorem map_new_columns_cols (t : Table) :
    (map_new_columns t).cols
      = t.cols.map renameCol
        ++ CANONICAL_COLS.filter
            (fun c => !((t.cols.map renameCol).contains c)) := rfl

/-- The rows produced by `map_new_columns`. -/
theorem map_new_columns_rows (t : Table) :
    (map_new_columns t).rows
      = t.rows.map (fun r =>
          r.map (fun p => (renameCol p.1, p.2))
            ++ (CANONICAL_COLS.filter
                (fun c => !((t.cols.map renameCol).contains c))).map
              (fun c => (c, Cell.str ""))) := by
  unfold map_new_columns
  simp [List.map_map]

/-- Renaming twice is renaming once, on whole schemas. -/
theorem map_renameCol_idem (l : List String) :
    (l.map renameCol).map renameCol = l.map renameCol := by
  rw [List.map_map]
  exact List.map_congr_left (fun a _ => renameCol_idem a)

/-- Renaming fixes a list of canonical names. -/
theorem map_renameCol_canonical (l : List String)
    (h : ∀ c ∈ l, c ∈ CANONICAL_COLS) : l.map renameCol = l := by
  have := List.map_congr_left
    (fun c hc => renameCol_canonical c (h c hc))
  rw [this]
  simp

/-- After one harmonization pass every canonical name is present. -/
theorem map_new_columns_has_canonical (t : Table) :
    ∀ c ∈ CANONICAL_COLS, c ∈ (map_new_columns t).cols := by
  intro c hc
  rw [map_new_columns_cols]
  by_cases hm : c ∈ t.cols.map renameCol
  · exact List.mem_append_left _ hm
  · refine List.mem_append_right _ (List.mem_filter.mpr ⟨hc, ?_⟩)
    simp only [Bool.not_eq_true']
    rw [← Bool.not_eq_true]
    intro hcon
    exact hm ((contains_mem _ _).mp hcon)

/-- C8 part 1, as a lemma: `map_new_columns` is idempotent. -/
theorem map_new_columns_idem (t : Table) :
    map_new_columns (map_new_columns t) = map_new_columns t := by
  have hmiss2 : CANONICAL_COLS.filter
      (fun c => !(((map_new_columns t).cols.map renameCol).contains c)) = [] := by
    apply List.filter_eq_nil_iff.mpr
    intro c hc
    have hfix : (map_new_columns t).cols.map renameCol = (map_new_columns t).cols := by
      rw [map_new_columns_cols, List.map_append, map_renameCol_idem,
        map_renameCol_canonical _ (fun x hx => (List.mem_filter.mp hx).1)]
    rw [hfix]
    have hmem : c ∈ (map_new_columns t).cols := map_new_columns_has_canonical t c hc
    simp [hmem]
  apply tableExt
  · rw [map_new_columns_cols (map_new_columns t), hmiss2, List.append_nil]
    rw [map_new_columns_cols, List.map_append, map_renameCol_idem,
      map_renameCol_canonical _ (fun x hx => (List.mem_filter.mp hx).1)]
  · rw [map_new_columns_rows (map_new_columns t), hmiss2]
    simp only [List.map_nil, List.append_nil]
    have hrow : ∀ r ∈ (map_new_columns t).rows,
        r.map (fun p => (renameCol p.1, p.2)) = r := by
      intro r hr
      rw [map_new_columns_rows] at hr
      obtain ⟨r0, -, rfl⟩ := List.mem_map.mp hr
      rw [List.map_append, List.map_map]
      have h1 : r0.map ((fun p => (renameCol p.1, p.2))
            ∘ (fun p : String × Cell => (renameCol p.1, p.2)))
          = r0.map (fun p => (renameCol p.1, p.2)) := by
        apply List.map_congr_left
        intro p _
        simp only [Function.comp_apply]
        rw [renameCol_idem]
      have h2 : ((CANONICAL_COLS.filter
            (fun c => !((t.cols.map renameCol).contains c))).map
            (fun c => (c, Cell.str ""))).map (fun p => (renameCol p.1, p.2))
          = (CANONICAL_COLS.filter
            (fun c => !((t.cols.map renameCol).contains c))).map
            (fun c => (c, Cell.str "")) := by
        rw [List.map_map]
        apply List.map_congr_left
        intro c hc
        simp only [Function.comp_apply]
        rw [renameCol_canonical c (List.mem_filter.mp hc).1]
      rw [h1, h2]
    rw [List.map_congr_left hrow]
    simp

/-- Looking up a key present in a constant-valued padding list yields the
constant. -/
theorem find?_const_pad (v : Cell) (c : String) :
    ∀ l : List String, c ∈ l →
      ((l.map (fun x => (x, v))).find? (fun p => p.1 == c)).map (fun p => p.2)
        = some v := by
  intro l
  induction l with
  | nil => intro h; simp at h
  | cons a as ih =>
    intro h
    rw [List.map_cons]
    by_cases hac : (a == c) = true
    · have h1 : List.find? (fun p => p.1 == c) ((a, v) :: as.map (fun x => (x, v)))
          = some (a, v) := List.find?_cons_of_pos _ hac
      rw [h1]
      rfl
    · have h1 : List.find? (fun p => p.1 == c) ((a, v) :: as.map (fun x => (x, v)))
          = List.find? (fun p => p.1 == c) (as.map (fun x => (x, v))) :=
        List.find?_cons_of_neg _ (by simpa using hac)
      rw [h1]
      apply ih
      rcases List.mem_cons.mp h with rfl | h2
      · exact absurd (by simp) hac
      · exact h2

/-- C8 part 2, as a lemma: a canonical column still absent after renaming
is added, holding the empty string in every row. -/
theorem map_new_columns_fills (t : Table) (ha : t.Aligned) (c : String)
    (hc : c ∈ CANONICAL_COLS)
    (habs : (t.cols.map renameCol).contains c = false) :
    c ∈ (map_new_columns t).cols
    ∧ ∀ r ∈ (map_new_columns t).rows, rowGet r c = some (Cell.str "") := by
  have hmiss : c ∈ CANONICAL_COLS.filter
      (fun x => !((t.cols.map renameCol).contains x)) :=
    List.mem_filter.mpr ⟨hc, by rw [habs]; rfl⟩
  constructor
  · rw [map_new_columns_cols]
    exact List.mem_append_right _ hmiss
  · intro r hr
    rw [map_new_columns_rows] at hr
    obtain ⟨r0, hr0, rfl⟩ := List.mem_map.mp hr
    unfold rowGet
    rw [List.find?_append]
    have hnone : (r0.map (fun p => (renameCol p.1, p.2))).find?
        (fun p => p.1 == c) = Option.none := by
      rw [List.find?_eq_none]
      intro p hp
      obtain ⟨q, hq, rfl⟩ := List.mem_map.mp hp
      intro hbeq
      have heq : renameCol q.1 = c := by simpa using hbeq
      have hkey : q.1 ∈ t.cols := by
        have hkeys := ha r0 hr0
        rw [← hkeys]
        exact List.mem_map.mpr ⟨q, hq, rfl⟩
      have hcmem : c ∈ t.cols.map renameCol :=
        heq ▸ List.mem_map.mpr ⟨q.1, hkey, rfl⟩
      have := (contains_mem _ _).mpr hcmem
      rw [habs] at this
      exact Bool.noConfusion this
    rw [hnone, Option.none_or]
    exact find?_const_pad (Cell.str "") c _ hmiss

/-- Renaming the keys of a row does not change the cells found under a
name the dictionary does not know. -/
theorem rowGet_renamed_pass (c : String)
    (h : COLUMN_MAPPING.lookup (pyStrip (pyLower c)) = Option.none) :
    ∀ r : Row, rowGet (r.map (fun p => (renameCol p.1, p.2))) c = rowGet r c := by
  have hcc : renameCol c = c := by unfold renameCol; rw [h]; rfl
  have hnc : c ∉ CANONICAL_COLS := by
    intro hmem
    obtain ⟨p, hp, hpc⟩ := List.mem_map.mp hmem
    subst hpc
    have hself := mapping_self p hp
    rw [h] at hself
    exact Option.noConfusion hself
  intro r
  induction r with
  | nil => rfl
  | cons p ps ih =>
    rw [List.map_cons]
    unfold rowGet at *
    by_cases hpc : (p.1 == c) = true
    · have hp1 : p.1 = c := by simpa using hpc
      have hpos1 : (((renameCol p.1, p.2) : String × Cell).1 == c) = true := by
        show (renameCol p.1 == c) = true
        rw [hp1, hcc]
        simp
      have h1 : List.find? (fun q => q.1 == c)
          ((renameCol p.1, p.2) :: ps.map (fun q => (renameCol q.1, q.2)))
          = some (renameCol p.1, p.2) := List.find?_cons_of_pos _ hpos1
      have h2 : List.find? (fun q => q.1 == c) (p :: ps) = some p :=
        List.find?_cons_of_pos _ hpc
      rw [h1, h2]
      rfl
    · have hne : renameCol p.1 ≠ c := by
        intro he
        by_cases hsame : renameCol p.1 = p.1
        · exact (by simpa using hpc : ¬ p.1 = c) (by rw [← hsame]; exact he)
        · exact hnc (he ▸ renameCol_mem_canonical p.1 hsame)
      have h1 : List.find? (fun q => q.1 == c)
          ((renameCol p.1, p.2) :: ps.map (fun q => (renameCol q.1, q.2)))
          = List.find? (fun q => q.1 == c) (ps.map (fun q => (renameCol q.1, q.2))) :=
        List.find?_cons_of_neg _ (by simpa using hne)
      have h2 : List.find? (fun q => q.1 == c) (p :: ps)
          = List.find? (fun q => q.1 == c) ps :=
        List.find?_cons_of_neg _ (by simpa using hpc)
      rw [h1, h2]
      exact ih

/-- C8 part 3, as a lemma: columns matching no known variant pass through
unchanged, keeping their values in every row. -/
theorem map_new_columns_passthrough (t : Table) (c : String)
    (h : COLUMN_MAPPING.lookup (pyStrip (pyLower c)) = Option.none) :
    renameCol c = c ∧ colValues (map_new_columns t) c = colValues t c := by
  have hcc : renameCol c = c := by unfold renameCol; rw [h]; rfl
  have hnc : c ∉ CANONICAL_COLS := by
    intro hmem
    obtain ⟨p, hp, hpc⟩ := List.mem_map.mp hmem
    subst hpc
    have hself := mapping_self p hp
    rw [h] at hself
    exact Option.noConfusion hself
  refine ⟨hcc, ?_⟩
  unfold colValues
  rw [map_new_columns_rows, List.map_map]
  apply List.map_congr_left
  intro r _
  simp only [Function.comp_apply]
  unfold rowGetD
  have hsplit : rowGet (r.map (fun p => (renameCol p.1, p.2))
      ++ (CANONICAL_COLS.filter
        (fun x => !((t.cols.map renameCol).contains x))).map
        (fun x => (x, Cell.str ""))) c
      = rowGet (r.map (fun p => (renameCol p.1, p.2))) c := by
    unfold rowGet
    rw [List.find?_append]
    have hpadnone : ((CANONICAL_COLS.filter
        (fun x => !((t.cols.map renameCol).contains x))).map
        (fun x => (x, Cell.str ""))).find? (fun p => p.1 == c) = Option.none := by
      rw [List.find?_eq_none]
      intro p hp
      obtain ⟨x, hx, rfl⟩ := List.mem_map.mp hp
      intro hbeq
      have hxc : x = c := by simpa using hbeq
      exact hnc (hxc ▸ (List.mem_filter.mp hx).1)
    rw [hpadnone]
    cases (r.map (fun p => (renameCol p.1, p.2))).find? (fun p => p.1 == c) <;> rfl
  rw [hsplit, rowGet_renamed_pass c h r]

/-- C8: `map_new_columns` is idempotent; after one application every
canonical column still absent after renaming is present with the empty
string in every row (of an aligned table); and a column whose lowered,
trimmed name matches no known variant passes through unchanged, values
included. -/
theorem c8_map_new_columns_idempotent :
    (∀ t : Table, map_new_columns (map_new_columns t) = map_new_columns t)
    ∧ (∀ t : Table, t.Aligned → ∀ c ∈ CANONICAL_COLS,
        (t.cols.map renameCol).contains c = false →
        c ∈ (map_new_columns t).cols
          ∧ ∀ r ∈ (map_new_columns t).rows, rowGet r c = some (Cell.str ""))
    ∧ (∀ (t : Table) (c : String),
        COLUMN_MAPPING.lookup (pyStrip (pyLower c)) = Option.none →
        renameCol c = c ∧ colValues (map_new_columns t) c = colValues t c) :=
  ⟨map_new_columns_idem,
   fun t ha c hc habs => map_new_columns_fills t ha c hc habs,
   fun t c h => map_new_columns_passthrough t c h⟩

/-- Witness for C8: a one-column table under a variant header, checked for
the fill rule on `RMA Number` and the pass-through rule on `foo`. -/
theorem c8_map_new_columns_idempotent_witness :
    (("RMA Number" : String) ∈ (map_new_columns c9NormW).cols
      ∧ rowGet ((map_new_columns c9NormW).rows.headD []) "RMA Number"
          = some (Cell.str ""))
    ∧ (renameCol "foo" = "foo"
      ∧ colValues (map_new_columns c9NormW) "foo" = colValues c9NormW "foo") :=
  ⟨⟨(c8_map_new_columns_idempotent.2.1 c9NormW
      (by
        intro r hr
        simp only [c9NormW, List.mem_singleton] at hr
        subst hr
        rfl)
      "RMA Number" (by decide) (by decide)).1,
    (c8_map_new_columns_idempotent.2.1 c9NormW
      (by
        intro r hr
        simp only [c9NormW, List.mem_singleton] at hr
        subst hr
        rfl)
      "RMA Number" (by decide) (by decide)).2
      ((map_new_columns c9NormW).rows.headD []) (by decide)⟩,
   c8_map_new_columns_idempotent.2.2 c9NormW "foo" (by decide)⟩

/-- C7 counterexample: on the empty table, `build_final_output_df` raises
(`KeyError` on the missing identifier column) instead of returning the
input, so the claim fails as stated. -/
theorem c7_counterexample : ¬ c7ClaimAt emptyTable emptyTable := by
  intro h
  obtain ⟨-, -, t, hok, -⟩ := h
  have herr : build_final_output_df emptyTable emptyTable
      = Except.error "KeyError: RMA Number" := rfl
  rw [herr] at hok
  exact Except.noConfusion hok

/-- C7 amended: `patch_rma_na_with_pr2` short-circuits and returns the
main input unchanged whenever either input table is empty;
`build_new_norm` never raises but returns the empty normalized frame (the
fixed 14-column schema, zero rows) rather than the input as-is; and
`build_final_output_df` has no empty-input guard — on an empty main table
lacking the identifier column it fails with a missing-column error. -/
theorem c7_empty_input_behaviour :
    (∀ m n : Table, (tableEmpty m || tableEmpty n) = true →
      patch_rma_na_with_pr2 m n = m)
    ∧ (∀ t : Table, t.rows = [] →
        build_new_norm t = { cols := NORM_COLS, rows := [] })
    ∧ (∀ m n : Table, tableEmpty m = true →
        m.cols.contains "RMA Number" = false →
        build_final_output_df m n = Except.error "KeyError: RMA Number") := by
  refine ⟨?_, ?_, ?_⟩
  · intro m n h
    unfold patch_rma_na_with_pr2
    rw [if_pos h]
  · intro t h
    unfold build_new_norm
    have hrows : (map_new_columns t).rows = [] := by
      rw [map_new_columns_rows, h]
      rfl
    simp only [hrows]
    rfl
  · intro m n hm hRMA
    have hpatch : patch_rma_na_with_pr2 m n = m := by
      unfold patch_rma_na_with_pr2
      rw [if_pos (by rw [hm]; rfl)]
    have hc1 : ((dropColumns m
        ["Tracking Number", "Ship To Location", "Original RMA"]).cols.contains
        "RMA Number") = false := by
      apply Bool.eq_false_iff.mpr
      intro hcon
      have hmem := (contains_mem _ _).mp hcon
      unfold dropColumns at hmem
      simp only [List.mem_filter] at hmem
      have hcon2 := (contains_mem _ _).mpr hmem.1
      rw [hRMA] at hcon2
      exact Bool.noConfusion hcon2
    have hnorm : normalize_rma_column (dropColumns m
        ["Tracking Number", "Ship To Location", "Original RMA"])
        = dropColumns m ["Tracking Number", "Ship To Location", "Original RMA"] := by
      unfold normalize_rma_column
      rw [hc1]
      rfl
    unfold build_final_output_df
    simp only [hpatch, hnorm, hc1]
    rfl

/-- The keys of a self-keyed projected row are the projected columns. -/
theorem map_fst_self (f : String → Cell) :
    ∀ cols : List String, (cols.map (fun x => (x, f x))).map Prod.fst = cols := by
  intro cols
  induction cols with
  | nil => rfl
  | cons a as ih => simp [ih]

/-- Looking up a present key in a self-keyed projected row returns the
projected value. -/
theorem rowGet_map_self (f : String → Cell) :
    ∀ (cols : List String) (c : String), c ∈ cols →
      rowGet (cols.map (fun x => (x, f x))) c = some (f c) := by
  intro cols
  induction cols with
  | nil => intro c h; simp at h
  | cons a as ih =>
    intro c h
    rw [List.map_cons]
    unfold rowGet at ih ⊢
    by_cases hac : (a == c) = true
    · have hcc : a = c := by simpa using hac
      subst hcc
      have h1 : List.find? (fun p => p.1 == a) ((a, f a) :: as.map (fun x => (x, f x)))
          = some (a, f a) := List.find?_cons_of_pos _ (by simp)
      rw [h1]
      rfl
    · have h1 : List.find? (fun p => p.1 == c) ((a, f a) :: as.map (fun x => (x, f x)))
          = List.find? (fun p => p.1 == c) (as.map (fun x => (x, f x))) :=
        List.find?_cons_of_neg _ (by simpa using hac)
      rw [h1]
      have hmem : c ∈ as := by
        rcases List.mem_cons.mp h with rfl | h2
        · exact absurd (by simp) hac
        · exact h2
      exact ih c hmem

/-- Appending pairs with foreign keys does not change a lookup. -/
theorem rowGet_append_pad (r pad : Row) (c : String)
    (hpad : ∀ p ∈ pad, p.1 ≠ c) :
    rowGet (r ++ pad) c = rowGet r c := by
  unfold rowGet
  rw [List.find?_append]
  have hnone : pad.find? (fun p => p.1 == c) = Option.none :=
    List.find?_eq_none.mpr (fun p hp hbeq => hpad p hp (by simpa using hbeq))
  rw [hnone]
  cases r.find? (fun p => p.1 == c) <;> rfl

/-- The blocklist filter keeps the schema. -/
theorem filterBlocked_cols (blocked : List String) (t : Table) :
    (filterBlocked blocked t).cols = t.cols := by
  unfold filterBlocked
  split <;> rfl

/-- Rows surviving the blocklist filter come from the input and either the
blocklist was empty or the row's identifier matches no blocked entry. -/
theorem mem_filterBlocked (blocked : List String) (t : Table) (r : Row)
    (hr : r ∈ (filterBlocked blocked t).rows) :
    r ∈ t.rows
    ∧ (blocked.isEmpty = true
        ∨ blocked.any (fun b =>
            cellEqStr (rowGetD r "RMA Number" (Cell.str "")) b) = false) := by
  unfold filterBlocked at hr
  split at hr
  case isTrue hemp => exact ⟨hr, Or.inl hemp⟩
  case isFalse hemp =>
    simp only [List.mem_filter] at hr
    exact ⟨hr.1, Or.inr (by simpa using hr.2)⟩

/-- Rows surviving the validity filter come from the input and carry an
8-digit identifier. -/
theorem mem_filterValidRma (t : Table) (r : Row)
    (hr : r ∈ (filterValidRma t).rows) :
    r ∈ t.rows
    ∧ isDigits8 (pyStr (rowGetD r "RMA Number" (Cell.str ""))) = true := by
  unfold filterValidRma at hr
  simp only [List.mem_filter] at hr
  exact hr

/-- Rows of `addMissingFinal` are input rows extended by the padding. -/
theorem mem_addMissingFinal (t : Table) (r5 : Row)
    (hr : r5 ∈ (addMissingFinal t).rows) :
    ∃ r4 ∈ t.rows,
      r5 = r4 ++ (FINAL_COLS.filter (fun c => !(t.cols.contains c))).map
        (fun c => (c, Cell.str "")) := by
  unfold addMissingFinal at hr
  obtain ⟨r4, h4, rfl⟩ := List.mem_map.mp hr
  exact ⟨r4, h4, rfl⟩

/-- When the identifier column exists, the padding never carries it. -/
theorem pad_keys_ne_rma (t : Table) (hmem : "RMA Number" ∈ t.cols) :
    ∀ p ∈ (FINAL_COLS.filter (fun c => !(t.cols.contains c))).map
        (fun c => (c, Cell.str "")), p.1 ≠ "RMA Number" := by
  intro p hp
  obtain ⟨c, hc, rfl⟩ := List.mem_map.mp hp
  intro hceq
  have h2 := (List.mem_filter.mp hc).2
  have hceq2 : c = "RMA Number" := hceq
  rw [hceq2] at h2
  have hcon := (contains_mem _ _).mpr hmem
  rw [hcon] at h2
  exact Bool.noConfusion h2

/-- A successful `build_final_output_df` run is the staged pipeline, and
the identifier column was present at filtering time. -/
theorem build_final_ok_spec (m n t : Table)
    (h : build_final_output_df m n = Except.ok t) :
    t = projectFinal (addMissingFinal (filterBlocked (blockedSet n)
        (filterValidRma (normalize_rma_column (dropColumns
          (patch_rma_na_with_pr2 m n)
          ["Tracking Number", "Ship To Location", "Original RMA"])))))
    ∧ (normalize_rma_column (dropColumns (patch_rma_na_with_pr2 m n)
        ["Tracking Number", "Ship To Location", "Original RMA"])).cols.contains
        "RMA Number" = true := by
  unfold build_final_output_df at h
  simp only [] at h
  split at h
  case isTrue hcond => exact ⟨(Except.ok.inj h).symm, hcond⟩
  case isFalse hcond => exact Except.noConfusion h

/-- Anatomy of every row of a successful final table: the schema is
`FINAL_COLS`, each row is keyed by `FINAL_COLS`, and its identifier cell is
the one that passed the validity filter and (when a blocklist exists) the
blocklist filter. -/
theorem final_row_anatomy (m n t : Table)
    (h : build_final_output_df m n = Except.ok t) :
    t.cols = FINAL_COLS
    ∧ ∀ r ∈ t.rows,
        r.map Prod.fst = FINAL_COLS
        ∧ ∃ v : Cell,
            rowGetD r "RMA Number" (Cell.str "") = v
            ∧ isDigits8 (pyStr v) = true
            ∧ ((blockedSet n).isEmpty = true
                ∨ (blockedSet n).any (fun b => cellEqStr v b) = false) := by
  obtain ⟨ht, hcond⟩ := build_final_ok_spec m n t h
  subst ht
  set base := filterBlocked (blockedSet n)
      (filterValidRma (normalize_rma_column (dropColumns
        (patch_rma_na_with_pr2 m n)
        ["Tracking Number", "Ship To Location", "Original RMA"]))) with hbase
  refine ⟨rfl, ?_⟩
  intro r hr
  unfold projectFinal at hr
  obtain ⟨r5, hr5, rfl⟩ := List.mem_map.mp hr
  constructor
  · exact map_fst_self (fun c => rowGetD r5 c (Cell.str "")) FINAL_COLS
  · obtain ⟨r4, hr4, hr5eq⟩ := mem_addMissingFinal base r5 hr5
    subst hr5eq
    set pad := (FINAL_COLS.filter (fun c => !(base.cols.contains c))).map
      (fun c => (c, Cell.str "")) with hpadE
    obtain ⟨hr3, hblockOk⟩ := mem_filterBlocked _ _ _ hr4
    obtain ⟨-, hdig⟩ := mem_filterValidRma _ _ hr3
    have hcols : base.cols.contains "RMA Number" = true := by
      rw [hbase, filterBlocked_cols]
      exact hcond
    have hpadne : ∀ p ∈ pad, p.1 ≠ "RMA Number" := by
      rw [hpadE]
      exact pad_keys_ne_rma base ((contains_mem _ _).mp hcols)
    have hmemF : ("RMA Number" : String) ∈ FINAL_COLS := by decide
    refine ⟨rowGetD r4 "RMA Number" (Cell.str ""), ?_, hdig, hblockOk⟩
    have hlk := rowGet_map_self
      (fun c => rowGetD (r4 ++ pad) c (Cell.str "")) FINAL_COLS "RMA Number" hmemF
    have hpadlk : rowGet (r4 ++ pad) "RMA Number" = rowGet r4 "RMA Number" :=
      rowGet_append_pad _ _ _ hpadne
    calc rowGetD (FINAL_COLS.map
          (fun c => (c, rowGetD (r4 ++ pad) c (Cell.str "")))) "RMA Number"
          (Cell.str "")
        = (rowGet (FINAL_COLS.map
            (fun c => (c, rowGetD (r4 ++ pad) c (Cell.str "")))) "RMA Number").getD
            (Cell.str "") := rfl
      _ = (some (rowGetD (r4 ++ pad) "RMA Number" (Cell.str ""))).getD
            (Cell.str "") := by rw [hlk]
      _ = (rowGet (r4 ++ pad) "RMA Number").getD (Cell.str "") := rfl
      _ = (rowGet r4 "RMA Number").getD (Cell.str "") := by rw [hpadlk]
      _ = rowGetD r4 "RMA Number" (Cell.str "") := rfl

/-- C3: no identifier of the `CONS PICK UP` blocked set appears in any row
of a successfully built final table, regardless of whether the identifier
also occurs via non-blocked source rows. -/
theorem c3_blocked_exclusion (m n t : Table)
    (h : build_final_output_df m n = Except.ok t) :
    ∀ r ∈ t.rows,
      pyStr (rowGetD r "RMA Number" (Cell.str "")) ∉ blockedSet n := by
  obtain ⟨-, hrows⟩ := final_row_anatomy m n t h
  intro r hr hmem
  obtain ⟨-, v, hv, hdig, hblock⟩ := hrows r hr
  rw [hv] at hmem
  rcases hblock with hemp | hany
  · rw [List.isEmpty_iff] at hemp
    rw [hemp] at hmem
    exact absurd hmem (List.not_mem_nil _)
  · cases v with
    | none => exact absurd hdig (by decide)
    | nan => exact absurd hdig (by decide)
    | str s =>
      have hfalse := (List.any_eq_false.mp hany) s hmem
      simp [cellEqStr] at hfalse

/-- Witness for C3: a valid non-blocked identifier survives while the table
carries a blocked one. -/
theorem c3_blocked_exclusion_witness :
    pyStr (rowGetD c3RowW "RMA Number" (Cell.str "")) ∉ blockedSet c3NormW :=
  c3_blocked_exclusion c3MainW c3NormW c3FinalW rfl c3RowW
    (List.mem_singleton.mpr rfl)

/-- C6 counterexample: on a main table carrying only the identifier
column, the final table's other columns are filled with the empty string,
so the claim fails as stated. -/
theorem c6_counterexample : ¬ c6ClaimAt c6Main c6Norm := by
  intro hcl
  have happ := hcl c6Final rfl c6Row (List.mem_singleton.mpr rfl)
    "Manifest Date" (by decide)
  exact happ rfl

/-- C6 amended: every successfully built final table has exactly the
eleven `FINAL_COLS` (every row keyed by them, so each row has a value for
each), and the identifier value of every row is a non-empty 8-digit
string; other columns may hold the empty string when absent or empty in
the input. -/
theorem c6_projection_completeness (m n t : Table)
    (h : build_final_output_df m n = Except.ok t) :
    t.cols = FINAL_COLS
    ∧ ∀ r ∈ t.rows,
        r.map Prod.fst = FINAL_COLS
        ∧ isDigits8 (pyStr (rowGetD r "RMA Number" (Cell.str ""))) = true := by
  obtain ⟨hcols, hrows⟩ := final_row_anatomy m n t h
  refine ⟨hcols, ?_⟩
  intro r hr
  obtain ⟨hkeys, v, hv, hdig, -⟩ := hrows r hr
  refine ⟨hkeys, ?_⟩
  rw [hv]
  exact hdig

/-- Witness for C6 amended, at the concrete counterexample input. -/
theorem c6_projection_completeness_witness :
    c6Final.cols = FINAL_COLS
    ∧ (c6Row.map Prod.fst = FINAL_COLS
        ∧ isDigits8 (pyStr (rowGetD c6Row "RMA Number" (Cell.str ""))) = true) :=
  ⟨(c6_projection_completeness c6Main c6Norm c6Final rfl).1,
   (c6_projection_completeness c6Main c6Norm c6Final rfl).2 c6Row
     (List.mem_singleton.mpr rfl)⟩

/-- A decimal digit is not whitespace. -/
theorem digit_not_ws (c : Char) (h : c.isDigit = true) : c.isWhitespace = false := by
  unfold Char.isDigit at h
  simp only [Bool.and_eq_true, decide_eq_true_eq] at h
  unfold Char.isWhitespace
  apply Bool.eq_false_iff.mpr
  intro hws
  simp only [Bool.or_eq_true, decide_eq_true_eq] at hws
  rcases hws with ((rfl | rfl) | rfl) | rfl
  all_goals exact absurd h (by decide)

/-- `dropWhile isWhitespace` fixes all-digit character lists. -/
theorem dropWhile_ws_digits (l : List Char) (h : ∀ c ∈ l, c.isDigit = true) :
    l.dropWhile Char.isWhitespace = l := by
  cases l with
  | nil => rfl
  | cons a as =>
    rw [List.dropWhile_cons, digit_not_ws a (h a (List.mem_cons_self _ _))]
    rfl

/-- Stripping fixes all-digit strings. -/
theorem pyStrip_digits (s : String) (h : ∀ c ∈ s.data, c.isDigit = true) :
    pyStrip s = s := by
  unfold pyStrip trimChars
  rw [dropWhile_ws_digits s.data h]
  rw [dropWhile_ws_digits s.data.reverse
    (fun c hc => h c (List.mem_reverse.mp hc))]
  rw [List.reverse_reverse]

/-- Every token of the 8-digit scan is all digits (restatement of the
soundness lemma in token form, for reuse). -/
theorem findall8_digits (s : String) (t : String) (h : t ∈ findall8 s) :
    isDigits8 t = true := by
  obtain ⟨hl, hd, -⟩ := scan8F_sound s.data.length false s.data t h
  unfold isDigits8
  simp only [Bool.and_eq_true, beq_iff_eq, List.all_eq_true]
  exact ⟨hl, fun c hc => by simpa using hd c hc⟩

/-- `find?` only depends on the predicate's values on the list. -/
theorem findCongr (p q : String → Bool) :
    ∀ l : List String, (∀ a ∈ l, p a = q a) → l.find? p = l.find? q := by
  intro l
  induction l with
  | nil => intro _; rfl
  | cons a as ih =>
    intro h
    by_cases hpa : p a = true
    · rw [List.find?_cons_of_pos _ hpa,
        List.find?_cons_of_pos _ (by rw [← h a (List.mem_cons_self _ _)]; exact hpa)]
    · rw [List.find?_cons_of_neg _ hpa,
        List.find?_cons_of_neg _ (by rw [← h a (List.mem_cons_self _ _)]; exact hpa)]
      exact ih (fun a ha => h a (List.mem_cons_of_mem _ ha))

/-- On candidate lists of exact 8-digit tokens, `_pick_best_rma` is exactly
the spec's rule: the first token starting with `'6'`, else the first
candidate, else the empty string. -/
theorem pick_best_eq_spec (l : List String)
    (hl : ∀ c ∈ l, isDigits8 c = true) :
    pick_best_rma l = specPickBest l := by
  unfold pick_best_rma specPickBest
  by_cases hemp : l.isEmpty = true
  · have hnil : l = [] := by simpa [List.isEmpty_iff] using hemp
    subst hnil
    rfl
  · rw [if_neg hemp]
    have hfilter : l.filter (fun c => isDigits8 (pyStrip c)) = l := by
      apply List.filter_eq_self.mpr
      intro c hc
      have hdig := hl c hc
      have hall : ∀ ch ∈ c.data, ch.isDigit = true := by
        have := hdig
        unfold isDigits8 at this
        simp only [Bool.and_eq_true, List.all_eq_true] at this
        exact fun ch hch => by simpa using this.2 ch hch
      rw [pyStrip_digits c hall]
      exact hdig
    rw [hfilter, if_neg hemp]
    have hcong : ∀ c ∈ l, isPref6Rx c = startsWithChar c '6' := by
      intro c hc
      have hdig := hl c hc
      unfold isDigits8 at hdig
      simp only [Bool.and_eq_true, beq_iff_eq, List.all_eq_true] at hdig
      unfold isPref6Rx startsWithChar
      cases hd : c.data with
      | nil => rw [hd] at hdig; simp at hdig
      | cons c0 rest =>
        rw [hd] at hdig
        simp only [List.length_cons] at hdig
        have hrlen : rest.length = 7 := by omega
        have hrall : rest.all Char.isDigit = true := by
          simp only [List.all_eq_true]
          intro x hx
          exact hdig.2 x (hd ▸ List.mem_cons_of_mem _ hx)
        simp [hrlen, hrall]
    rw [findCongr _ _ l hcong]

/-- Every `UPS_TN_REGEX` match is 18 characters long. -/
theorem scanTNF_length (fuel : Nat) :
    ∀ (prev : Bool) (cs : List Char) (t : String),
      t ∈ scanTNF fuel prev cs → t.data.length = 18 := by
  induction fuel with
  | zero => intro prev cs t h; simp [scanTNF] at h
  | succ fuel ih =>
    intro prev cs t h
    match cs with
    | [] => simp [scanTNF] at h
    | c :: cs =>
      rw [scanTNF] at h
      by_cases hcond : (!prev && ((c :: cs).take 18).length == 18
          && ((c :: cs).take 18).take 1 == ['1']
          && ((((c :: cs).take 18).drop 1).take 1 == ['Z']
            || (((c :: cs).take 18).drop 1).take 1 == ['z'])
          && (((c :: cs).take 18).drop 2).all Char.isAlphanum
          && scanTNF.headNotDigitWord ((c :: cs).drop 18)) = true
      · rw [if_pos hcond] at h
        rcases List.mem_cons.mp h with heq | hrec
        · subst heq
          simp only [Bool.and_eq_true, beq_iff_eq] at hcond
          exact hcond.1.1.1.1.2
        · exact ih true ((c :: cs).drop 18) t hrec
      · rw [if_neg hcond] at h
        exact ih (isWordChar c) cs t h

/-- Extracted tracking numbers are never the empty string. -/
theorem extractTnList_ne_empty (v : Cell) (t : String)
    (h : t ∈ extractTnList v) : t ≠ "" := by
  unfold extractTnList at h
  split at h
  · simp at h
  · obtain ⟨t0, ht0, rfl⟩ := List.mem_map.mp h
    have hlen := scanTNF_length (pyStr v).data.length false (pyStr v).data t0 ht0
    intro hemp
    have : (String.mk (t0.data.map Char.toUpper)).data.length = 0 := by
      rw [hemp]
      rfl
    simp only [List.length_map] at this
    omega

/-- The `tn_to_pr2` dictionary (insertion with overwrite, blank keys
skipped) agrees, on every non-blank key, with the spec's description: the
best valid token of the secondary-reference field of the LAST row bearing
that tracking number. -/
theorem tn_to_pr2_eq_spec (n : Table) (k : String) (hk : k ≠ "") :
    tn_to_pr2 n k = specFallbackMap n k := by
  unfold tn_to_pr2 specFallbackMap
  induction n.rows using List.reverseRecOn with
  | nil => rfl
  | append_singleton l r ih =>
    rw [List.foldl_append, List.foldl_cons, List.foldl_nil,
      List.reverse_append]
    simp only [List.reverse_cons, List.reverse_nil, List.nil_append,
      List.cons_append]
    by_cases hbeq : (pyUpper (pyStrip (pyStrOrEmpty
        (rowGetD r "Tracking Number" (Cell.str "")))) == k) = true
    · have hkeq : pyUpper (pyStrip (pyStrOrEmpty
          (rowGetD r "Tracking Number" (Cell.str "")))) = k := by simpa using hbeq
      have hfind : List.find? (fun row => pyUpper (pyStrip (pyStrOrEmpty
            (rowGetD row "Tracking Number" (Cell.str "")))) == k) (r :: l.reverse)
          = some r := List.find?_cons_of_pos _ hbeq
      rw [hfind]
      have htn : pyUpper (pyStrip (pyStrOrEmpty
          (rowGetD r "Tracking Number" (Cell.str "")))) ≠ "" := by
        rw [hkeq]; exact hk
      rw [if_neg htn]
      rw [if_pos hkeq.symm]
      apply pick_best_eq_spec
      intro c hc
      exact findall8_digits _ c hc
    · have hkne : pyUpper (pyStrip (pyStrOrEmpty
          (rowGetD r "Tracking Number" (Cell.str "")))) ≠ k := by simpa using hbeq
      have hfind : List.find? (fun row => pyUpper (pyStrip (pyStrOrEmpty
            (rowGetD row "Tracking Number" (Cell.str "")))) == k) (r :: l.reverse)
          = List.find? (fun row => pyUpper (pyStrip (pyStrOrEmpty
            (rowGetD row "Tracking Number" (Cell.str "")))) == k) l.reverse :=
        List.find?_cons_of_neg _ hbeq
      rw [hfind]
      by_cases htn : pyUpper (pyStrip (pyStrOrEmpty
          (rowGetD r "Tracking Number" (Cell.str "")))) = ""
      · rw [if_pos htn]
        exact ih
      · rw [if_neg htn]
        rw [if_neg (fun h => hkne h.symm)]
        exact ih

/-- The per-row fallback of `patch_rma_na_with_pr2`, with its dictionary,
equals the spec-side amended description of C2. -/
theorem fallback_eq_spec (n : Table) (r : Row) :
    fallback_rma (tn_to_pr2 n) (rowGetD r "RMA Number" (Cell.str ""))
        (rowGetD r "Tracking Number - Details" (Cell.str ""))
      = specFallbackAmended n r := by
  unfold fallback_rma specFallbackAmended
  by_cases hcond : ((pyStrip (pyStrOrEmpty (rowGetD r "RMA Number" (Cell.str "")))) ≠ ""
      && pyUpper (pyStrip (pyStrOrEmpty (rowGetD r "RMA Number" (Cell.str "")))) != "N/A"
      && isDigits8 (pyStrip (pyStrOrEmpty (rowGetD r "RMA Number" (Cell.str ""))))) = true
  · rw [if_pos hcond, if_pos hcond]
  · rw [if_neg hcond, if_neg hcond]
    cases hdet : rowGetD r "Tracking Number - Details" (Cell.str "") with
    | none => rfl
    | nan => rfl
    | str s2 =>
      by_cases hemp2 : s2.data.isEmpty = true
      · have hd : s2.data = [] := by simpa [List.isEmpty_iff] using hemp2
        simp [cellTruthy, hemp2, extractTnList, pyIsNa, pyStr, tnFindAll, hd, scanTNF]
      · rw [show cellTruthy (Cell.str s2) = true by
          simp [cellTruthy, hemp2]]
        rw [if_pos rfl]
        cases hext : extractTnList (Cell.str s2) with
        | nil => rfl
        | cons t rest =>
          have ht : t ≠ "" :=
            extractTnList_ne_empty (Cell.str s2) t
              (by rw [hext]; exact List.mem_cons_self _ _)
          simp only [tn_to_pr2_eq_spec n t ht]

/-- Overwriting the cells under a stored key makes its first cell the new
value. -/
theorem find?_setKey_self (k : String) (v : Cell) :
    ∀ r : Row, (∃ p ∈ r, p.1 = k) →
      ((r.map (fun p => if p.1 = k then (p.1, v) else p)).find?
        (fun p => p.1 == k)).map (fun p => p.2) = some v := by
  intro r
  induction r with
  | nil => rintro ⟨p, hp, -⟩; simp at hp
  | cons p ps ih =>
    rintro ⟨q, hq, hqk⟩
    rw [List.map_cons]
    by_cases hpk : p.1 = k
    · rw [if_pos hpk]
      have h1 : List.find? (fun x => x.1 == k)
          ((p.1, v) :: ps.map (fun x => if x.1 = k then (x.1, v) else x))
          = some (p.1, v) := List.find?_cons_of_pos _ (by simp [hpk])
      rw [h1]
      rfl
    · rw [if_neg hpk]
      have h1 : List.find? (fun x => x.1 == k)
          (p :: ps.map (fun x => if x.1 = k then (x.1, v) else x))
          = List.find? (fun x => x.1 == k)
            (ps.map (fun x => if x.1 = k then (x.1, v) else x)) :=
        List.find?_cons_of_neg _ (by simpa using hpk)
      rw [h1]
      apply ih
      rcases List.mem_cons.mp hq with rfl | hq2
      · exact absurd hqk hpk
      · exact ⟨q, hq2, hqk⟩

/-- Appending a fresh key makes it findable with its value. -/
theorem rowGet_append_self (r : Row) (k : String) (v : Cell)
    (hnone : ∀ p ∈ r, p.1 ≠ k) :
    rowGet (r ++ [(k, v)]) k = some v := by
  unfold rowGet
  rw [List.find?_append]
  have h1 : r.find? (fun p => p.1 == k) = Option.none :=
    List.find?_eq_none.mpr (fun p hp hbeq => hnone p hp (by simpa using hbeq))
  rw [h1]
  have h2 : List.find? (fun p => p.1 == k) [(k, v)] = some (k, v) :=
    List.find?_cons_of_pos _ (by simp)
  rw [h2]
  rfl

/-- Writing a column (`out[col] = series`) makes the written value the one
found under the column name, on schema-aligned rows. -/
theorem rowGet_setCol_value (cols : List String) (r : Row) (v : Cell)
    (hAlign : r.map Prod.fst = cols) :
    rowGet (setCol cols "RMA Number" r v) "RMA Number" = some v := by
  unfold setCol
  by_cases hc : cols.contains "RMA Number" = true
  · rw [if_pos hc]
    have hmem := (contains_mem _ _).mp hc
    rw [← hAlign] at hmem
    obtain ⟨p, hp, hpk⟩ := List.mem_map.mp hmem
    unfold rowGet
    exact find?_setKey_self "RMA Number" v r ⟨p, hp, hpk⟩
  · rw [if_neg hc]
    apply rowGet_append_self
    intro p hp hpk
    apply hc
    apply (contains_mem _ _).mpr
    rw [← hAlign]
    exact List.mem_map.mpr ⟨p, hp, hpk⟩

/-- C2 counterexample: for the main row whose identifier is the
whitespace-padded `" 12345678 "`, the claim as frozen predicts the
sentinel `"N/A"` (the raw identifier does not match `^\d{8}$` and the
details field yields no tracking number), but the code keeps the trimmed
`"12345678"` because all three checks are made on the trimmed string. -/
theorem c2_counterexample : ¬ c2ClaimAt c2Main c2Norm := by
  intro h
  have hlhs : colValues (patch_rma_na_with_pr2 c2Main c2Norm) "RMA Number"
      = [Cell.str "12345678"] := rfl
  have hrhs : c2Main.rows.map (fun r => Cell.str (claimFallbackC2 c2Norm r))
      = [Cell.str "N/A"] := rfl
  rw [c2ClaimAt, hlhs, hrhs] at h
  simp at h

/-- C2 amended: for non-empty aligned inputs, the patched identifier
column is, row for row, the spec-side fallback value computed on the
TRIMMED identifier: keep the trimmed identifier when it is non-empty, not
the sentinel (case-insensitively), and exactly 8 digits; otherwise look up
the first tracking number of the details field in the last-write-wins
fallback map (best valid secondary-reference token, preferring a
`'6'`-prefixed one) and use it when it is exactly 8 digits, else the
sentinel `"N/A"`. -/
theorem c2_patch_fallback (m n : Table) (hm : tableEmpty m = false)
    (hn : tableEmpty n = false) (ha : m.Aligned) :
    colValues (patch_rma_na_with_pr2 m n) "RMA Number"
      = m.rows.map (fun r => Cell.str (specFallbackAmended n r)) := by
  unfold patch_rma_na_with_pr2
  rw [if_neg (by rw [hm, hn]; simp)]
  unfold colValues
  simp only [List.map_map]
  apply List.map_congr_left
  intro r hr
  simp only [Function.comp_apply]
  have hval : rowGetD (setCol m.cols "RMA Number" r
      (Cell.str (fallback_rma (tn_to_pr2 n) (rowGetD r "RMA Number" (Cell.str ""))
        (rowGetD r "Tracking Number - Details" (Cell.str "")))))
      "RMA Number" (Cell.str "")
      = Cell.str (fallback_rma (tn_to_pr2 n) (rowGetD r "RMA Number" (Cell.str ""))
        (rowGetD r "Tracking Number - Details" (Cell.str ""))) := by
    have hset := rowGet_setCol_value m.cols r
      (Cell.str (fallback_rma (tn_to_pr2 n) (rowGetD r "RMA Number" (Cell.str ""))
        (rowGetD r "Tracking Number - Details" (Cell.str "")))) (ha r hr)
    show (rowGet (setCol m.cols "RMA Number" r
        (Cell.str (fallback_rma (tn_to_pr2 n) (rowGetD r "RMA Number" (Cell.str ""))
          (rowGetD r "Tracking Number - Details" (Cell.str "")))))
        "RMA Number").getD (Cell.str "")
      = Cell.str (fallback_rma (tn_to_pr2 n) (rowGetD r "RMA Number" (Cell.str ""))
        (rowGetD r "Tracking Number - Details" (Cell.str "")))
    rw [hset]
    rfl
  rw [hval, fallback_eq_spec]

/-- Witness for C2 amended, at the counterexample tables. -/
theorem c2_patch_fallback_witness :
    colValues (patch_rma_na_with_pr2 c2Main c2Norm) "RMA Number"
      = c2Main.rows.map (fun r => Cell.str (specFallbackAmended c2Norm r)) :=
  c2_patch_fallback c2Main c2Norm rfl rfl
    (by
      intro r hr
      simp only [c2Main, List.mem_singleton] at hr
      subst hr
      rfl)

/-- Witness for C7 amended, at the empty table. -/
theorem c7_empty_input_behaviour_witness :
    patch_rma_na_with_pr2 emptyTable emptyTable = emptyTable
    ∧ build_new_norm emptyTable = { cols := NORM_COLS, rows := [] }
    ∧ build_final_output_df emptyTable emptyTable
        = Except.error "KeyError: RMA Number" :=
  ⟨c7_empty_input_behaviour.1 emptyTable emptyTable rfl,
   c7_empty_input_behaviour.2.1 emptyTable rfl,
   c7_empty_input_behaviour.2.2 emptyTable emptyTable rfl rfl⟩
